import Mathlib

/-!
Verification development for the dormant-site-activation pipeline's
annotation-and-scoring core.

The definitions below are shallow embeddings of the Python sources:

* `src/07_purifying_selection/analyze_coverage_constraint.py`
  (in-memory and streaming coverage lookup, constraint statistics),
* `src/07_purifying_selection/query_coverage.py`
  (tabix random-access lookup, confidence tiers),
* `src/03_intersect_gnomad/query_gnomad_vcfs.py`
  (parallel per-chromosome executor, shard planner, result merger),
* `src/08_forbidden_variants/score_forbidden_variants.py`
  (batched resumable scorer).

Machine text is modelled as follows: a coverage-file locus key
"chrom:pos" is represented by the pair `(chrom, pos)` it encodes (the
encoding is injective because the position suffix contains no tab or
colon), chromosome names that undergo prefix surgery are represented as
`List Char`, and a raw coverage line is represented by its parse
outcome (see `CovLine`).
-/

namespace DormantPipeline

/-- A coverage-file key.  The source keys its dictionaries by the string
`f"chr{chrom}:{position}"`; we represent that string by the
(chromosome, position) pair it injectively encodes. -/
abbrev Locus := String × Nat

/-- One data line of the two-column coverage file
(`locus TAB allele_number`), represented by its parse outcome:
`good locus an` is a line splitting into exactly two tab fields whose
second parses as an integer; `badInt locus` splits into two fields but
its second field is not an integer (Python `int()` raises
`ValueError`); `badShape` does not split into exactly two fields
(tuple unpacking raises `ValueError`). -/
inductive CovLine where
  | good (locus : Locus) (an : Int)
  | badInt (locus : Locus)
  | badShape
  deriving DecidableEq, Repr

/-- Python `dict` assignment `d[k] = v`: replace the value of an
existing key in place, otherwise append the new binding. -/
def dictInsert (d : List (Locus × Int)) (k : Locus) (v : Int) :
    List (Locus × Int) :=
  if d.any (fun e => e.1 = k) then
    d.map (fun e => if e.1 = k then (k, v) else e)
  else
    d ++ [(k, v)]

/-- Python `dict` lookup `d.get(k)` (keys are unique in a `dict`;
on our association lists the first binding wins). -/
def dictLookup (d : List (Locus × Int)) (k : Locus) : Option Int :=
  (d.find? (fun e => e.1 = k)).map (fun e => e.2)

/-- `load_coverage_into_memory` (analyze_coverage_constraint.py,
lines 147-198): fold every data line into a dictionary; lines that fail
to split into two fields or whose value field is non-numeric are
skipped (`except ValueError: continue`).  The single header line is
consumed by the caller-side `next(f)` before this list is seen. -/
def load_coverage_into_memory (lines : List CovLine) : List (Locus × Int) :=
  lines.foldl
    (fun d l =>
      match l with
      | CovLine.good locus an => dictInsert d locus an
      | CovLine.badInt _ => d
      | CovLine.badShape => d)
    []

/-- `query_coverage_from_memory` (analyze_coverage_constraint.py,
lines 201-229): restrict the loaded dictionary to the query set
(`{locus: coverage_dict[locus] for locus in query_positions if locus in
coverage_dict}`). -/
def query_coverage_from_memory (coverage_dict : List (Locus × Int))
    (query_positions : Finset Locus) : List (Locus × Int) :=
  coverage_dict.filter (fun e => e.1 ∈ query_positions)

/-- Outcome of the streaming pass: the result dictionary, how many data
lines were consumed, whether the pass ended through the early-exit
`break`, and whether it crashed (`int()` raising an uncaught
`ValueError` on a queried locus). -/
structure StreamResult where
  results : List (Locus × Int)
  reads : Nat
  broke : Bool
  crashed : Bool
  deriving DecidableEq, Repr

/-- Count one more consumed line in a `StreamResult`. -/
def bumpRead (r : StreamResult) : StreamResult :=
  ⟨r.results, r.reads + 1, r.broke, r.crashed⟩

/-- Core loop of `query_coverage_file` (analyze_coverage_constraint.py,
lines 232-287).  For each line: a line that does not split into two
fields is skipped; otherwise, if the locus is in the query set, the
value is parsed (`int(an_str)` is outside the `try`, so a bad value
field on a queried locus crashes the pass) and stored, and the pass
`break`s as soon as `len(results) == len(query_positions)`. -/
def streamGo (query_positions : Finset Locus) :
    List CovLine → List (Locus × Int) → StreamResult
  | [], acc => ⟨acc, 0, false, false⟩
  | l :: ls, acc =>
    match l with
    | CovLine.badShape => bumpRead (streamGo query_positions ls acc)
    | CovLine.badInt locus =>
      if locus ∈ query_positions then ⟨acc, 1, false, true⟩
      else bumpRead (streamGo query_positions ls acc)
    | CovLine.good locus an =>
      if locus ∈ query_positions then
        let acc2 := dictInsert acc locus an
        if acc2.length = query_positions.card then ⟨acc2, 1, true, false⟩
        else bumpRead (streamGo query_positions ls acc2)
      else bumpRead (streamGo query_positions ls acc)

/-- `query_coverage_file` (analyze_coverage_constraint.py, lines
232-287): the single streaming pass, started with an empty result
dictionary. -/
def query_coverage_file (lines : List CovLine)
    (query_positions : Finset Locus) : StreamResult :=
  streamGo query_positions lines []

/-- An abstract reference coverage dataset: the (locus, allele number)
rows, in file order. -/
abbrev CovRef := List (Locus × Int)

/-- The two-column text file materialising a reference dataset, as seen
by the file-reading backends (every derived line is well formed). -/
def covLines (ref : CovRef) : List CovLine :=
  ref.map (fun e => CovLine.good e.1 e.2)

/-- `tbx.fetch(chrom, pos-1, pos)` over the tabix-indexed three-column
reformatting of the same reference dataset: the rows whose single-base
interval is the queried position, in file order. -/
def tabixFetch (ref : CovRef) (q : Locus) : CovRef :=
  ref.filter (fun e => e.1 = q)

/-- `query_batch` (query_coverage.py, lines 46-63): for each queried
position, initialise `an = 0`, fetch the tabix rows for that position
and take `int(parts[2])` of the first one (`break`), leaving 0 when no
row matches; any exception (including the `pos-1 < 0` coordinate error
raised for position 0) also yields `(chrom, pos, 0)`. -/
def query_batch (ref : CovRef) (positions_batch : List Locus) :
    List (Locus × Int) :=
  positions_batch.map
    (fun q =>
      if q.2 = 0 then (q, 0)
      else
        match tabixFetch ref q with
        | [] => (q, 0)
        | e :: _ => (q, e.2))

/-- Confidence tiers for an allele-number value (query_coverage.py,
lines 144-148, and `save_position_coverage` in
analyze_coverage_constraint.py, lines 400-409). -/
inductive Tier where
  | high
  | medium
  | low
  | missing
  deriving DecidableEq, Repr

/-- `AN_HIGH_CONFIDENCE` / `AN_HIGH`. -/
def AN_HIGH : Int := 100000

/-- `AN_MEDIUM_CONFIDENCE` / `AN_MED`. -/
def AN_MED : Int := 50000

/-- `MAX_AN`, the maximum allele number in gnomAD v4.1 genomes. -/
def MAX_AN : Int := 1614006

/-- The confidence tier assigned to a raw allele-number value by the
downstream tiering (query_coverage.py lines 144-148: `missing` is
`an == 0`; analyze_coverage_constraint.py lines 400-409 assign the same
tiers to `coverage_data.get(locus, 0)`). -/
def tierOfAN (an : Int) : Tier :=
  if an ≥ AN_HIGH then Tier.high
  else if an ≥ AN_MED then Tier.medium
  else if an > 0 then Tier.low
  else Tier.missing

/-- Python `dict.get(h, set())` on an integer-keyed map of locus sets
(the maps built by `load_mutation_positions` / `load_observed_variants`
have unique keys, so the first binding wins). -/
def lookupSet (m : List (Nat × Finset Locus)) (h : Nat) : Finset Locus :=
  ((m.find? (fun e => e.1 = h)).map (fun e => e.2)).getD ∅

/-- Exact binomial cumulative distribution function
`P[X ≤ k]` for `X ~ Binomial(n, p)`, in exact rational arithmetic. -/
def binomCdf (k n : Nat) (p : ℚ) : ℚ :=
  ∑ i ∈ Finset.range (k + 1), (n.choose i : ℚ) * p ^ i * (1 - p) ^ (n - i)

/-- `scipy.stats.binom.cdf(k, n, p)`: scipy validates its arguments and
returns NaN when `p` is not a probability; `none` models that NaN. -/
def scipy_binom_cdf (k n : Nat) (p : ℚ) : Option ℚ :=
  if 0 ≤ p ∧ p ≤ 1 then some (binomCdf k n p) else none

/-- The baseline (least-selected stratum) rate computed inside
`compute_constraint_statistics` (analyze_coverage_constraint.py, lines
347-353): the Hamming-3 observed/possible ratio when a Hamming-3
stratum exists (0 when its possible set is empty), otherwise the
current stratum's own ratio (0 when its possible set is empty). -/
def baselineRate (pbh obh : List (Nat × Finset Locus))
    (possible observed : Finset Locus) : ℚ :=
  if (pbh.find? (fun e => e.1 = 3)).isSome then
    let bp := lookupSet pbh 3
    let bo := lookupSet obh 3
    if 0 < bp.card then (bo.card : ℚ) / (bp.card : ℚ) else 0
  else
    if 0 < possible.card then (observed.card : ℚ) / (possible.card : ℚ)
    else 0

/-- One output row of `compute_constraint_statistics`.  `fold_depletion`
is `⊤` for Python's `float('inf')`; `binomial_p` is `none` for a scipy
NaN. -/
structure ConstraintRow where
  hamming : Nat
  total_possible : Nat
  high_conf_possible : Nat
  medium_conf_possible : Nat
  low_conf_possible : Nat
  missing_coverage : Nat
  observed : Nat
  high_conf_observed : Nat
  baseline_rate : ℚ
  expected_uniform : ℚ
  fold_depletion : WithTop ℚ
  binomial_p : Option ℚ
  mean_an : ℚ
  effective_coverage_fraction : ℚ
  deriving DecidableEq, Repr

/-- The row `compute_constraint_statistics`
(analyze_coverage_constraint.py, lines 312-383) appends for one
stratum: per-confidence counts over the possible set, the observed
count, the coverage-adjusted quantities, the guarded fold depletion
(`float('inf')` when nothing is observed) and the guarded binomial
p-value (`1.0` unless the possible set is nonempty and the baseline
rate positive). -/
def constraintRow (pbh obh : List (Nat × Finset Locus)) (cov : CovRef)
    (h : Nat) (possible : Finset Locus) : ConstraintRow :=
  let observed := lookupSet obh h
  let high_conf :=
    (possible.filter
      (fun l => (dictLookup cov l).any (fun a => decide (AN_HIGH ≤ a)))).card
  let medium_conf :=
    (possible.filter
      (fun l => (dictLookup cov l).any
        (fun a => decide (a < AN_HIGH ∧ AN_MED ≤ a)))).card
  let low_conf :=
    (possible.filter
      (fun l => (dictLookup cov l).any (fun a => decide (a < AN_MED)))).card
  let missing := (possible.filter (fun l => dictLookup cov l = none)).card
  let total_an : Int := ∑ l ∈ possible, (dictLookup cov l).getD 0
  let high_conf_observed :=
    (observed.filter
      (fun l => (dictLookup cov l).any (fun a => decide (AN_HIGH ≤ a)))).card
  let effective_coverage : ℚ := (total_an : ℚ) / (MAX_AN : ℚ)
  let rate := baselineRate pbh obh possible observed
  let expected_uniform : ℚ := (possible.card : ℚ) * rate
  let n_observed := observed.card
  ⟨h, possible.card, high_conf, medium_conf, low_conf, missing,
    n_observed, high_conf_observed, rate, expected_uniform,
    (if 0 < n_observed then
      ((expected_uniform / (n_observed : ℚ) : ℚ) : WithTop ℚ)
    else ⊤),
    (if 0 < possible.card ∧ 0 < rate then
      scipy_binom_cdf n_observed possible.card rate
    else some 1),
    (if 0 < possible.card then (total_an : ℚ) / (possible.card : ℚ) else 0),
    (if 0 < possible.card then effective_coverage / (possible.card : ℚ)
    else 0)⟩

/-- `compute_constraint_statistics` (analyze_coverage_constraint.py,
lines 290-385): one row per stratum of the possible-positions map.  The
source iterates `sorted(positions_by_hamming.keys())`; we take the
stratum list already in that (key-sorted, duplicate-free) order, which
is how its callers construct it. -/
def compute_constraint_statistics (pbh obh : List (Nat × Finset Locus))
    (cov : CovRef) : List ConstraintRow :=
  pbh.map (fun e => constraintRow pbh obh cov e.1 e.2)

/-! Module 03: parallel gnomAD query (query_gnomad_vcfs.py).
Chromosome names are strings whose `chr` prefix gets inspected and
patched; we represent them as `List Char`. -/

/-- A chromosome name. -/
abbrev Chrom := List Char

/-- Python `s.startswith('chr')`. -/
def startsWithChr (c : Chrom) : Bool := c.take 3 = ['c', 'h', 'r']

/-- Python `'chr' + s`. -/
def chrAdd (c : Chrom) : Chrom := 'c' :: 'h' :: 'r' :: c

/-- The per-position prefix normalisation: a name already carrying the
`chr` prefix is kept, any other name receives it. -/
def prefixNormalize (c : Chrom) : Chrom :=
  if startsWithChr c then c else chrAdd c

/-- One row of the query-regions BED file.  The source rows are
`(chr, start, start+1, "chr:start")`; the third and fourth columns are
derived from the first two and carry no independent data. -/
structure BedRow where
  chr : Chrom
  start : Nat
  deriving DecidableEq, Repr

/-- One tab-separated row of `bcftools query` output
(`%CHROM %POS %REF %ALT %INFO/AF %INFO/AC %INFO/AN %INFO/nhomalt`). -/
structure GnomadRow where
  chr : Chrom
  pos : Nat
  ref : List Char
  alt : List Char
  af : ℚ
  ac : Int
  an : Int
  nhomalt : Int
  deriving DecidableEq, Repr

/-- The outcome of one shard's external `bcftools` invocation, an input
of the model: the subprocess exits 0 with the given stdout rows, exits
non-zero with the given stderr text, or exceeds the 6-hour timeout. -/
inductive CallOutcome where
  | ok (rows : List GnomadRow)
  | fail (stderr : List Char)
  | timeout
  deriving DecidableEq, Repr

/-- The per-shard result tuple
`(chrom, variants_text, num_variants, error_msg)` returned by
`query_single_chromosome`; the stdout text is kept as its parsed
rows. -/
structure ShardResult where
  chrom : Chrom
  variants_text : List GnomadRow
  num_variants : Nat
  error_msg : Option (List Char)
  deriving DecidableEq, Repr

/-- `query_single_chromosome` (query_gnomad_vcfs.py, lines 26-104):
missing VCF yields an error result without any call; an empty
per-chromosome BED slice yields an empty success without any call;
otherwise the external call runs and a non-zero exit attaches
`"bcftools failed: "` plus the stderr truncated to 500 characters
(`e.stderr[:500]`), a timeout attaches a fixed message, and a 0 exit
returns the stdout rows (`num_variants` counts its newlines, one per
row).  The "VCF not found" message embeds the path; its exact text
plays no role here. -/
def query_single_chromosome (vcfExists : Chrom → Bool)
    (callOutcome : Chrom → CallOutcome) (bed_df : List BedRow)
    (chrom : Chrom) : ShardResult :=
  if vcfExists chrom = false then
    ⟨chrom, [], 0, some ("VCF not found".data)⟩
  else if bed_df.filter (fun r => r.chr = chrom) = [] then
    ⟨chrom, [], 0, none⟩
  else
    match callOutcome chrom with
    | CallOutcome.ok rows => ⟨chrom, rows, rows.length, none⟩
    | CallOutcome.fail stderr =>
      ⟨chrom, [], 0, some ("bcftools failed: ".data ++ stderr.take 500)⟩
    | CallOutcome.timeout =>
      ⟨chrom, [], 0, some ("Query timed out (>6 hours)".data)⟩

/-- The chromosomes for which gnomAD VCFs exist:
`[f'chr{i}' for i in range(1, 23)] + ['chrX', 'chrY']`. -/
def availableChroms : List Chrom :=
  ((List.range 22).map (fun i => ("chr" ++ toString (i + 1)).data))
    ++ ["chrX".data, "chrY".data]

/-- The whole-table prefix fixup in `query_gnomad_parallel` (lines
164-169) and `match_paths_to_gnomad` (lines 283-288): when the FIRST
row's chromosome lacks the `chr` prefix, the prefix is prepended to
every row's chromosome; otherwise no row is touched.  The source
crashes on an empty table (`.iloc[0]`); this embedding is only applied
to nonempty tables. -/
def normalizeChrColumn (chrs : List Chrom) : List Chrom :=
  match chrs with
  | [] => []
  | c0 :: _ => if startsWithChr c0 then chrs else chrs.map chrAdd

/-- The BED table after the prefix fixup of `query_gnomad_parallel`. -/
def normalizeBed (bed : List BedRow) : List BedRow :=
  match bed with
  | [] => []
  | r0 :: _ =>
    if startsWithChr r0.chr then bed
    else bed.map (fun r => ⟨chrAdd r.chr, r.start⟩)

/-- The BED table restricted to canonical chromosomes
(query_gnomad_parallel, lines 171-187): the distinct normalized
chromosome names are intersected with `availableChroms` and the BED is
filtered to that set.  The source sorts the distinct names; only their
set matters downstream, so the file-order `dedup` is kept. -/
def filteredBed (bed : List BedRow) : List BedRow :=
  let nb := normalizeBed bed
  let chroms :=
    ((nb.map (fun r => r.chr)).dedup).filter (fun c => c ∈ availableChroms)
  nb.filter (fun r => r.chr ∈ chroms)

/-- The shard list (query_gnomad_parallel, line 189): one shard per
distinct chromosome of the filtered BED. -/
def planChroms (bed : List BedRow) : List Chrom :=
  ((filteredBed bed).map (fun r => r.chr)).dedup

/-- State accumulated while draining completed shard futures
(query_gnomad_parallel, lines 203-232): the per-shard results, the
failed-chromosome list, the rows appended to the output file, and the
running variant total. -/
structure ExecState where
  results : List ShardResult
  failed : List Chrom
  outRows : List GnomadRow
  total_variants : Nat
  deriving DecidableEq, Repr

/-- One iteration of the `as_completed` drain loop of
`query_gnomad_parallel` (lines 218-232): the completed shard's result
is recorded; a shard with an error message is appended to `failed`, a
successful shard's stdout rows are appended to the output file and
counted. -/
def drainStep (vcfExists : Chrom → Bool)
    (callOutcome : Chrom → CallOutcome) (bed_df : List BedRow)
    (st : ExecState) (chrom : Chrom) : ExecState :=
  let r := query_single_chromosome vcfExists callOutcome bed_df chrom
  match r.error_msg with
  | some _ =>
    ⟨st.results ++ [r], st.failed ++ [chrom], st.outRows,
      st.total_variants⟩
  | none =>
    ⟨st.results ++ [r], st.failed, st.outRows ++ r.variants_text,
      st.total_variants + r.num_variants⟩

/-- The drain loop over every submitted shard (lines 210-232); `order`
is the completion order of the futures (an arbitrary permutation of
the submitted shards). -/
def drainShards (vcfExists : Chrom → Bool)
    (callOutcome : Chrom → CallOutcome) (bed_df : List BedRow)
    (order : List Chrom) : ExecState :=
  order.foldl (drainStep vcfExists callOutcome bed_df) ⟨[], [], [], 0⟩

/-- `query_gnomad_parallel` (query_gnomad_vcfs.py, lines 107-243):
plan, dispatch, drain.  Returns the executor state; the source's
boolean return value is `state.failed.length = 0`. -/
def query_gnomad_parallel (vcfExists : Chrom → Bool)
    (callOutcome : Chrom → CallOutcome) (bed : List BedRow)
    (order : List Chrom) : ExecState :=
  drainShards vcfExists callOutcome (filteredBed bed) order

/-- One row of the mutation-paths table as seen by the merger (the
merge keys `chr, genomic_position, ref_base, alt_base`; the remaining
metadata columns ride along unchanged and are omitted). -/
structure PathRow where
  chr : Chrom
  pos : Nat
  ref : List Char
  alt : List Char
  deriving DecidableEq, Repr

/-- One row of the merged table written by `match_paths_to_gnomad`:
the path row, the gnomAD-side key columns (`none` = the NaN of an
unmatched left join, which is never filled), and the four annotation
columns after `fillna` (AF 0.0, AC 0, AN 0, nhomalt 0). -/
structure MergedRow where
  path : PathRow
  gnomadKey : Option (Chrom × Nat × List Char × List Char)
  af : ℚ
  ac : Int
  an : Int
  nhomalt : Int
  deriving DecidableEq, Repr

/-- The annotation part of a merged row (everything except the
path-side columns). -/
structure Annotation where
  gnomadKey : Option (Chrom × Nat × List Char × List Char)
  af : ℚ
  ac : Int
  an : Int
  nhomalt : Int
  deriving DecidableEq, Repr

/-- Strip the path-side columns off a merged row. -/
def MergedRow.annotation (r : MergedRow) : Annotation :=
  ⟨r.gnomadKey, r.af, r.ac, r.an, r.nhomalt⟩

/-- The pandas left merge of `match_paths_to_gnomad` (lines 294-311):
each left row is paired with every gnomAD row matching on
`(chr, pos, ref, alt)`, in right-table order, or kept once with NaN
annotations when nothing matches; `fillna` then turns the NaN
annotation values (and only those) into zeros. -/
def leftMergeFill (paths : List PathRow) (gnomad : List GnomadRow) :
    List MergedRow :=
  paths.flatMap
    (fun p =>
      match gnomad.filter
        (fun g => g.chr = p.chr ∧ g.pos = p.pos ∧ g.ref = p.ref ∧
          g.alt = p.alt) with
      | [] => [⟨p, none, 0, 0, 0, 0⟩]
      | ms =>
        ms.map
          (fun g =>
            ⟨p, some (g.chr, g.pos, g.ref, g.alt), g.af, g.ac, g.an,
              g.nhomalt⟩))

/-- The paths table after the prefix fixup of `match_paths_to_gnomad`
(lines 283-288), same first-row heuristic as `normalizeBed`. -/
def normalizePaths (paths : List PathRow) : List PathRow :=
  match paths with
  | [] => []
  | p0 :: _ =>
    if startsWithChr p0.chr then paths
    else paths.map (fun p => ⟨chrAdd p.chr, p.pos, p.ref, p.alt⟩)

/-- `match_paths_to_gnomad` (query_gnomad_vcfs.py, lines 246-317):
normalize the paths table's chromosome column (first-row heuristic),
left-merge with the gnomAD query results, fill the missing annotation
values with zeros. -/
def match_paths_to_gnomad (paths : List PathRow)
    (gnomad : List GnomadRow) : List MergedRow :=
  leftMergeFill (normalizePaths paths) gnomad

/-! Module 08: batched resumable scorer (score_forbidden_variants.py).
The external scoring service is abstracted as an oracle mapping an
input item to either its per-variant summary record or the failure
reason string logged for it; `α` is the item (variant row) type and `β`
the summary-record type. -/

/-- Durable write events emitted by a scorer run, in program order:
`artifact i rows` is the parquet file `partitions/batch_{i:04d}.parquet`
written by `score_batch_and_save`, `checkpoint i payload` is the
running-summary table `summary_checkpoint.tsv` written after batch `i`
(every 10th batch), holding all summaries accumulated so far. -/
inductive BatchEvent (β : Type) where
  | artifact (idx : Nat) (rows : List β)
  | checkpoint (idx : Nat) (payload : List β)
  deriving DecidableEq, Repr

/-- Accumulator of the scoring loop of `main`
(score_forbidden_variants.py, lines 235-268): `all_summaries`,
`all_failed`, and the durable write events. -/
structure RunAcc (α β : Type) where
  summaries : List β
  failures : List (α × String)
  events : List (BatchEvent β)
  deriving DecidableEq, Repr

/-- The item slice of batch `i`:
`variants_df.iloc[i*batch_size : min((i+1)*batch_size, n)]`. -/
def batchOf (items : List α) (batch_size i : Nat) : List α :=
  (items.drop (i * batch_size)).take batch_size

/-- The items of a batch the oracle scores successfully, in batch
order, with their summary records (the per-variant rows of the batch's
`groupby` summary). -/
def batchSuccesses (oracle : α → Except String β) (batch : List α) :
    List β :=
  batch.filterMap (fun x => (oracle x).toOption)

/-- The items of a batch the oracle fails on, with the logged failure
reason (`score_batch_and_save`, lines 98-103). -/
def batchFailures (oracle : α → Except String β) (batch : List α) :
    List (α × String) :=
  batch.filterMap
    (fun x =>
      match oracle x with
      | Except.error e => some (x, e)
      | Except.ok _ => none)

/-- One iteration of the batch loop (lines 238-268), fused with
`score_batch_and_save` (lines 54-155): score the batch; when no item
succeeded return early WITHOUT writing a parquet artifact
(`if not batch_results: return [], failed`), otherwise write the
batch's artifact; extend the running summary and failure lists; after
every 10th batch write `summary_checkpoint.tsv` with all summaries so
far. -/
def scoreStep (oracle : α → Except String β) (items : List α)
    (batch_size : Nat) (st : RunAcc α β) (i : Nat) : RunAcc α β :=
  let batch := batchOf items batch_size i
  let succ := batchSuccesses oracle batch
  let fail := batchFailures oracle batch
  let sums2 := st.summaries ++ succ
  let ev1 : List (BatchEvent β) :=
    if succ.isEmpty then [] else [BatchEvent.artifact i succ]
  let ev2 : List (BatchEvent β) :=
    if (i + 1) % 10 = 0 then [BatchEvent.checkpoint i sums2] else []
  ⟨sums2, st.failures ++ fail, st.events ++ ev1 ++ ev2⟩

/-- The number of batches:
`(n_variants + batch_size - 1) // batch_size` (for `batch_size ≥ 1`;
the source divides by zero for `batch_size = 0`). -/
def nBatches (items : List α) (batch_size : Nat) : Nat :=
  (items.length + batch_size - 1) / batch_size

/-- The batch indices a run executes:
`range(args.resume_from, n_batches)`. -/
def runIndices (items : List α) (batch_size resume_from : Nat) :
    List Nat :=
  (List.range (nBatches items batch_size)).drop resume_from

/-- A whole scorer run (`main`, lines 158-331): execute the batches
from `resume_from` upward, starting from EMPTY summary/failure
accumulators — a restarted run does not reload the summaries of
earlier batches (neither `summary_checkpoint.tsv` nor the parquet
partitions are read back).  The final `predictions_summary.tsv` is
`summaries` joined 1:1 with the input metadata and re-sorted, so its
row multiset is that of `summaries`. -/
def scoreRun (oracle : α → Except String β) (items : List α)
    (batch_size resume_from : Nat) : RunAcc α β :=
  (runIndices items batch_size resume_from).foldl
    (scoreStep oracle items batch_size) ⟨[], [], []⟩

/-- A process restart after a crash.  Modelled from the source: `main`
never reads the durable state a previous run left behind
(`summary_checkpoint.tsv` and the parquet partitions); the only resume
input is the `--resume-from` argument (default 0), so the prior state
parameter is unused. -/
def restartRun (_prior : RunAcc α β) (oracle : α → Except String β)
    (items : List α) (batch_size resume_from : Nat) : RunAcc α β :=
  scoreRun oracle items batch_size resume_from

/-- The batch index of the last checkpoint write of a run, if any. -/
def lastCheckpointedAt (st : RunAcc α β) : Option Nat :=
  (st.events.filterMap
    (fun e =>
      match e with
      | BatchEvent.checkpoint i _ => some i
      | BatchEvent.artifact _ _ => none)).getLast?

/-- The batch indices whose parquet artifacts a run wrote, in write
order. -/
def artifactIndices (st : RunAcc α β) : List Nat :=
  st.events.filterMap
    (fun e =>
      match e with
      | BatchEvent.artifact i _ => some i
      | BatchEvent.checkpoint _ _ => none)

/-! Dictionary lemmas. -/

theorem dictLookup_nil (q : Locus) : dictLookup [] q = none := rfl

theorem dictLookup_cons (e : Locus × Int) (d : List (Locus × Int))
    (q : Locus) :
    dictLookup (e :: d) q =
      if e.1 = q then some e.2 else dictLookup d q := by
  simp only [dictLookup, List.find?_cons]
  by_cases h : e.1 = q
  · simp [h]
  · simp [h]

theorem dictLookup_append (d₁ d₂ : List (Locus × Int)) (q : Locus) :
    dictLookup (d₁ ++ d₂) q = (dictLookup d₁ q).or (dictLookup d₂ q) := by
  simp only [dictLookup, List.find?_append]
  cases List.find? (fun e => e.1 = q) d₁ <;> simp

theorem dictLookup_eq_none_of_not_mem_keys (d : List (Locus × Int))
    (q : Locus) (h : ∀ e ∈ d, e.1 ≠ q) : dictLookup d q = none := by
  simp only [dictLookup, Option.map_eq_none']
  rw [List.find?_eq_none]
  intro e he
  simpa using h e he

theorem dictInsert_of_not_mem (d : List (Locus × Int)) (k : Locus)
    (v : Int) (h : ∀ e ∈ d, e.1 ≠ k) : dictInsert d k v = d ++ [(k, v)] := by
  unfold dictInsert
  rw [if_neg]
  simp only [List.any_eq_true, decide_eq_true_eq, not_exists]
  intro e hc
  exact h e hc.1 hc.2

theorem dictLookup_isSome_of_mem_keys (d : List (Locus × Int)) (q : Locus)
    (h : ∃ e ∈ d, e.1 = q) : ∃ v, dictLookup d q = some v := by
  obtain ⟨e, he, hk⟩ := h
  have hf : (List.find? (fun e => e.1 = q) d).isSome = true := by
    rw [List.find?_isSome]
    exact ⟨e, he, by simpa using hk⟩
  obtain ⟨f, hfv⟩ := Option.isSome_iff_exists.mp hf
  exact ⟨f.2, by simp [dictLookup, hfv]⟩

/-- When an association list with duplicate-free keys inside the query
set has exactly as many entries as the query set, it covers the whole
query set. -/
theorem dictLookup_isSome_of_card (d : List (Locus × Int))
    (Q : Finset Locus) (hnd : (d.map Prod.fst).Nodup)
    (hsub : ∀ e ∈ d, e.1 ∈ Q) (hcard : d.length = Q.card) (q : Locus)
    (hq : q ∈ Q) : ∃ v, dictLookup d q = some v := by
  have hsubF : (d.map Prod.fst).toFinset ⊆ Q := by
    intro x hx
    rw [List.mem_toFinset, List.mem_map] at hx
    obtain ⟨e, he, hex⟩ := hx
    exact hex ▸ hsub e he
  have hcardF : Q.card ≤ (d.map Prod.fst).toFinset.card := by
    rw [List.toFinset_card_of_nodup hnd, List.length_map, hcard]
  have hFQ : (d.map Prod.fst).toFinset = Q :=
    Finset.eq_of_subset_of_card_le hsubF hcardF
  have hqm : q ∈ d.map Prod.fst := by
    rw [← List.mem_toFinset, hFQ]
    exact hq
  rw [List.mem_map] at hqm
  obtain ⟨e, he, hek⟩ := hqm
  exact dictLookup_isSome_of_mem_keys d q ⟨e, he, hek⟩

/-! Streaming-pass invariants. -/

theorem bumpRead_results (r : StreamResult) :
    (bumpRead r).results = r.results := rfl

theorem streamGo_lookup (Q : Finset Locus) :
    ∀ (lines : List (Locus × Int)) (acc : List (Locus × Int)),
    (acc.map Prod.fst).Nodup →
    (∀ e ∈ acc, e.1 ∈ Q) →
    (∀ e ∈ acc, ∀ f ∈ lines, e.1 ≠ f.1) →
    (lines.map Prod.fst).Nodup →
    ∀ q, dictLookup (streamGo Q (covLines lines) acc).results q =
      if q ∈ Q then (dictLookup acc q).or (dictLookup lines q) else none
  | [], acc, _, haccQ, _, _, q => by
    simp only [covLines, List.map_nil, streamGo]
    by_cases hq : q ∈ Q
    · simp [hq, dictLookup_nil, Option.or_none]
    · rw [if_neg hq]
      exact dictLookup_eq_none_of_not_mem_keys acc q
        (fun e he hk => hq (hk ▸ haccQ e he))
  | (k, v) :: rest, acc, hknd, haccQ, hdisj, hlnd, q => by
    have hkacc : ∀ e ∈ acc, e.1 ≠ k :=
      fun e he => hdisj e he (k, v) (List.mem_cons_self _ _)
    have hl : (k :: rest.map Prod.fst).Nodup := by simpa using hlnd
    have hknotin : k ∉ rest.map Prod.fst := (List.nodup_cons.mp hl).1
    have hlnd' : (rest.map Prod.fst).Nodup := (List.nodup_cons.mp hl).2
    have hkrest : ∀ f ∈ rest, k ≠ f.1 := by
      intro f hf hk
      exact hknotin (by rw [hk]; exact List.mem_map.mpr ⟨f, hf, rfl⟩)
    simp only [covLines, List.map_cons, streamGo]
    by_cases hkQ : k ∈ Q
    · rw [if_pos hkQ]
      have hins : dictInsert acc k v = acc ++ [(k, v)] :=
        dictInsert_of_not_mem acc k v hkacc
      have hnd2 : ((acc ++ [(k, v)]).map Prod.fst).Nodup := by
        rw [List.map_append]
        refine List.Nodup.append hknd (by simp) ?_
        intro x hx hy
        simp only [List.map_cons, List.map_nil, List.mem_singleton] at hy
        rw [List.mem_map] at hx
        obtain ⟨e, he, hex⟩ := hx
        exact hkacc e he (hex.trans hy)
      have hsub2 : ∀ e ∈ acc ++ [(k, v)], e.1 ∈ Q := by
        intro e he
        rcases List.mem_append.mp he with h | h
        · exact haccQ e h
        · simp only [List.mem_singleton] at h
          rw [h]
          exact hkQ
      have haccnone : dictLookup acc k = none :=
        dictLookup_eq_none_of_not_mem_keys acc k hkacc
      by_cases hbreak : (dictInsert acc k v).length = Q.card
      · rw [if_pos hbreak]
        rw [hins] at hbreak
        by_cases hq : q ∈ Q
        · rw [if_pos hq]
          simp only [hins]
          by_cases hqk : q = k
          · subst hqk
            have h1 : dictLookup [(q, v)] q = some v := by
              rw [dictLookup_cons]
              simp
            have h2 : dictLookup ((q, v) :: rest) q = some v := by
              rw [dictLookup_cons]
              simp
            rw [dictLookup_append, haccnone, h1, h2]
          · obtain ⟨w, hw⟩ :=
              dictLookup_isSome_of_card (acc ++ [(k, v)]) Q hnd2 hsub2
                hbreak q hq
            have hsing : dictLookup [(k, v)] q = none := by
              rw [dictLookup_cons, if_neg (fun h => hqk h.symm)]
              rfl
            have hLHS : dictLookup (acc ++ [(k, v)]) q =
                dictLookup acc q := by
              rw [dictLookup_append, hsing, Option.or_none]
            have hacw : dictLookup acc q = some w := by
              rw [← hLHS]
              exact hw
            have hcons : dictLookup ((k, v) :: rest) q =
                dictLookup rest q := by
              rw [dictLookup_cons, if_neg (fun h => hqk h.symm)]
            rw [hLHS, hacw, hcons]
            rfl
        · rw [if_neg hq]
          simp only [hins]
          exact dictLookup_eq_none_of_not_mem_keys _ q
            (fun e he hk => hq (hk ▸ hsub2 e he))
      · rw [if_neg hbreak]
        have hdisj2 : ∀ e ∈ acc ++ [(k, v)], ∀ f ∈ rest, e.1 ≠ f.1 := by
          intro e he f hf
          rcases List.mem_append.mp he with h | h
          · exact hdisj e h f (List.mem_cons_of_mem _ hf)
          · simp only [List.mem_singleton] at h
            rw [h]
            exact hkrest f hf
        have IH := streamGo_lookup Q rest (dictInsert acc k v)
          (hins ▸ hnd2) (hins ▸ hsub2) (hins ▸ hdisj2) hlnd' q
        simp only [covLines] at IH
        rw [bumpRead_results, IH, hins]
        by_cases hq : q ∈ Q
        · rw [if_pos hq, if_pos hq, dictLookup_append]
          by_cases hqk : q = k
          · subst hqk
            have h1 : dictLookup [(q, v)] q = some v := by
              rw [dictLookup_cons]
              simp
            have h2 : dictLookup ((q, v) :: rest) q = some v := by
              rw [dictLookup_cons]
              simp
            rw [haccnone, h1, h2, Option.none_or]
            rfl
          · have hsing : dictLookup [(k, v)] q = none := by
              rw [dictLookup_cons, if_neg (fun h => hqk h.symm)]
              rfl
            have hcons : dictLookup ((k, v) :: rest) q =
                dictLookup rest q := by
              rw [dictLookup_cons, if_neg (fun h => hqk h.symm)]
            rw [hsing, Option.or_none, hcons]
        · rw [if_neg hq, if_neg hq]
    · rw [if_neg hkQ]
      have IH := streamGo_lookup Q rest acc hknd haccQ
        (fun e he f hf => hdisj e he f (List.mem_cons_of_mem _ hf))
        hlnd' q
      simp only [covLines] at IH
      rw [bumpRead_results, IH]
      by_cases hq : q ∈ Q
      · rw [if_pos hq, if_pos hq]
        have hqk : ¬k = q := fun h => hkQ (h ▸ hq)
        rw [dictLookup_cons, if_neg hqk]
      · rw [if_neg hq, if_neg hq]

/-! In-memory backend lemmas. -/

theorem load_covLines_go :
    ∀ (ref d : List (Locus × Int)),
    (∀ e ∈ d, ∀ f ∈ ref, e.1 ≠ f.1) → (ref.map Prod.fst).Nodup →
    (covLines ref).foldl
      (fun d l =>
        match l with
        | CovLine.good locus an => dictInsert d locus an
        | CovLine.badInt _ => d
        | CovLine.badShape => d) d = d ++ ref
  | [], d, _, _ => by simp [covLines]
  | (k, v) :: rest, d, hdisj, hnd => by
    have hins : dictInsert d k v = d ++ [(k, v)] :=
      dictInsert_of_not_mem d k v
        (fun e he => hdisj e he (k, v) (List.mem_cons_self _ _))
    have hl : (k :: rest.map Prod.fst).Nodup := by simpa using hnd
    have hnd' : (rest.map Prod.fst).Nodup := (List.nodup_cons.mp hl).2
    have hkrest : ∀ f ∈ rest, k ≠ f.1 := by
      intro f hf hk
      exact (List.nodup_cons.mp hl).1
        (by rw [hk]; exact List.mem_map.mpr ⟨f, hf, rfl⟩)
    have hdisj' : ∀ e ∈ d ++ [(k, v)], ∀ f ∈ rest, e.1 ≠ f.1 := by
      intro e he f hf
      rcases List.mem_append.mp he with h | h
      · exact hdisj e h f (List.mem_cons_of_mem _ hf)
      · simp only [List.mem_singleton] at h
        rw [h]
        exact hkrest f hf
    have IH := load_covLines_go rest (d ++ [(k, v)]) hdisj' hnd'
    simp only [covLines, List.map_cons, List.foldl_cons] at IH ⊢
    rw [hins, IH, List.append_assoc]
    rfl

theorem load_covLines (ref : List (Locus × Int))
    (hnd : (ref.map Prod.fst).Nodup) :
    load_coverage_into_memory (covLines ref) = ref := by
  have hd : ∀ e ∈ ([] : List (Locus × Int)), ∀ f ∈ ref, e.1 ≠ f.1 := by
    intro e he
    exact absurd he (List.not_mem_nil e)
  have := load_covLines_go ref [] hd hnd
  simpa [load_coverage_into_memory] using this

theorem dictLookup_query_from_memory (d : List (Locus × Int))
    (Q : Finset Locus) (q : Locus) :
    dictLookup (query_coverage_from_memory d Q) q =
      if q ∈ Q then dictLookup d q else none := by
  induction d with
  | nil =>
    simp [query_coverage_from_memory, dictLookup_nil]
  | cons e rest IH =>
    simp only [query_coverage_from_memory, List.filter_cons] at IH ⊢
    by_cases he : e.1 ∈ Q
    · rw [if_pos (by simpa using he)]
      rw [dictLookup_cons]
      by_cases hk : e.1 = q
      · rw [if_pos hk, dictLookup_cons, if_pos hk, if_pos (hk ▸ he)]
      · rw [if_neg hk, IH, dictLookup_cons, if_neg hk]
    · rw [if_neg (by simpa using he), IH]
      by_cases hq : q ∈ Q
      · rw [if_pos hq, if_pos hq, dictLookup_cons]
        have : ¬e.1 = q := fun h => he (h ▸ hq)
        rw [if_neg this]
      · rw [if_neg hq, if_neg hq]

/-! Tabix backend lemmas. -/

theorem filter_head?_eq_find? (p : Locus × Int → Bool) :
    ∀ l : List (Locus × Int), (l.filter p).head? = l.find? p
  | [] => rfl
  | e :: rest => by
    simp only [List.filter_cons, List.find?_cons]
    by_cases h : p e
    · simp [h]
    · simp [h, filter_head?_eq_find? p rest]

theorem query_batch_value (ref : CovRef) (q : Locus) (h0 : q.2 ≠ 0) :
    (if q.2 = 0 then ((q, 0) : Locus × Int)
      else
        match tabixFetch ref q with
        | [] => (q, 0)
        | e :: _ => (q, e.2)) = (q, (dictLookup ref q).getD 0) := by
  rw [if_neg h0]
  have hh := filter_head?_eq_find? (fun e => decide (e.1 = q)) ref
  unfold tabixFetch dictLookup
  cases hf : ref.filter (fun e => decide (e.1 = q)) with
  | nil =>
    rw [hf] at hh
    rw [← hh]
    rfl
  | cons e rest =>
    rw [hf] at hh
    rw [← hh]
    rfl

theorem dictLookup_query_batch (ref : CovRef) :
    ∀ (batch : List Locus) (q : Locus), q ∈ batch → q.2 ≠ 0 →
    dictLookup (query_batch ref batch) q =
      some ((dictLookup ref q).getD 0)
  | [], q, hq, _ => absurd hq (List.not_mem_nil q)
  | b :: rest, q, hq, h0 => by
    simp only [query_batch, List.map_cons]
    by_cases hqb : b = q
    · subst hqb
      rw [query_batch_value ref b h0, dictLookup_cons]
      simp
    · rw [dictLookup_cons, if_neg]
      · have hmem : q ∈ rest := by
          rcases List.mem_cons.mp hq with h | h
          · exact absurd h.symm hqb
          · exact h
        exact dictLookup_query_batch ref rest q hmem h0
      · intro hc
        apply hqb
        by_cases hb0 : b.2 = 0
        · simpa [hb0] using hc
        · rw [query_batch_value ref b hb0] at hc
          simpa using hc

theorem bumpRead_reads (r : StreamResult) :
    (bumpRead r).reads = r.reads + 1 := rfl

theorem bumpRead_broke (r : StreamResult) :
    (bumpRead r).broke = r.broke := rfl

theorem streamGo_reads_le (Q : Finset Locus) :
    ∀ (ls : List CovLine) (acc : List (Locus × Int)),
      (streamGo Q ls acc).reads ≤ ls.length
  | [], _ => by simp [streamGo]
  | CovLine.badShape :: ls, acc => by
    simp only [streamGo, bumpRead_reads, List.length_cons]
    exact Nat.succ_le_succ (streamGo_reads_le Q ls acc)
  | CovLine.badInt locus :: ls, acc => by
    simp only [streamGo, List.length_cons]
    by_cases h : locus ∈ Q
    · rw [if_pos h]
      simp
    · rw [if_neg h]
      rw [bumpRead_reads]
      exact Nat.succ_le_succ (streamGo_reads_le Q ls acc)
  | CovLine.good locus an :: ls, acc => by
    simp only [streamGo, List.length_cons]
    by_cases h : locus ∈ Q
    · rw [if_pos h]
      by_cases hb : (dictInsert acc locus an).length = Q.card
      · rw [if_pos hb]
        simp
      · rw [if_neg hb, bumpRead_reads]
        exact Nat.succ_le_succ
          (streamGo_reads_le Q ls (dictInsert acc locus an))
    · rw [if_neg h, bumpRead_reads]
      exact Nat.succ_le_succ (streamGo_reads_le Q ls acc)

theorem streamGo_take_reads (Q : Finset Locus) :
    ∀ (ls : List CovLine) (acc : List (Locus × Int)),
      streamGo Q (ls.take ((streamGo Q ls acc).reads)) acc =
        streamGo Q ls acc
  | [], _ => by simp [streamGo]
  | CovLine.badShape :: ls, acc => by
    simp only [streamGo, bumpRead_reads, List.take_succ_cons]
    exact congrArg bumpRead (streamGo_take_reads Q ls acc)
  | CovLine.badInt locus :: ls, acc => by
    by_cases h : locus ∈ Q
    · rw [show (streamGo Q (CovLine.badInt locus :: ls) acc).reads = 1
        from by simp [streamGo, h]]
      rw [List.take_succ_cons, List.take_zero]
      simp [streamGo, h]
    · simp only [streamGo, if_neg h, bumpRead_reads, List.take_succ_cons]
      exact congrArg bumpRead (streamGo_take_reads Q ls acc)
  | CovLine.good locus an :: ls, acc => by
    by_cases h : locus ∈ Q
    · by_cases hb : (dictInsert acc locus an).length = Q.card
      · rw [show (streamGo Q (CovLine.good locus an :: ls) acc).reads = 1
          from by simp [streamGo, h, hb]]
        rw [List.take_succ_cons, List.take_zero]
        simp [streamGo, h, hb]
      · simp only [streamGo, if_pos h, if_neg hb, bumpRead_reads,
          List.take_succ_cons]
        exact congrArg bumpRead
          (streamGo_take_reads Q ls (dictInsert acc locus an))
    · simp only [streamGo, if_neg h, bumpRead_reads, List.take_succ_cons]
      exact congrArg bumpRead (streamGo_take_reads Q ls acc)

theorem streamGo_broke_card (Q : Finset Locus) :
    ∀ (ls : List CovLine) (acc : List (Locus × Int)),
      (streamGo Q ls acc).broke = true →
      (streamGo Q ls acc).results.length = Q.card
  | [], _ => by simp [streamGo]
  | CovLine.badShape :: ls, acc => by
    simp only [streamGo, bumpRead_broke, bumpRead_results]
    exact streamGo_broke_card Q ls acc
  | CovLine.badInt locus :: ls, acc => by
    simp only [streamGo]
    by_cases h : locus ∈ Q
    · rw [if_pos h]
      simp
    · rw [if_neg h, bumpRead_broke, bumpRead_results]
      exact streamGo_broke_card Q ls acc
  | CovLine.good locus an :: ls, acc => by
    simp only [streamGo]
    by_cases h : locus ∈ Q
    · rw [if_pos h]
      by_cases hb : (dictInsert acc locus an).length = Q.card
      · rw [if_pos hb]
        intro _
        exact hb
      · rw [if_neg hb, bumpRead_broke, bumpRead_results]
        exact streamGo_broke_card Q ls (dictInsert acc locus an)
    · rw [if_neg h, bumpRead_broke, bumpRead_results]
      exact streamGo_broke_card Q ls acc

theorem streamGo_append_of_broke (Q : Finset Locus) :
    ∀ (ls₁ ls₂ : List CovLine) (acc : List (Locus × Int)),
      (streamGo Q ls₁ acc).broke = true →
      streamGo Q (ls₁ ++ ls₂) acc = streamGo Q ls₁ acc
  | [], _, acc => by simp [streamGo]
  | CovLine.badShape :: ls, ls₂, acc => by
    simp only [streamGo, bumpRead_broke, List.cons_append]
    intro hb
    exact congrArg bumpRead (streamGo_append_of_broke Q ls ls₂ acc hb)
  | CovLine.badInt locus :: ls, ls₂, acc => by
    by_cases h : locus ∈ Q
    · intro _
      simp [streamGo, h]
    · simp only [streamGo, if_neg h, bumpRead_broke, List.cons_append]
      intro hb
      exact congrArg bumpRead (streamGo_append_of_broke Q ls ls₂ acc hb)
  | CovLine.good locus an :: ls, ls₂, acc => by
    by_cases h : locus ∈ Q
    · by_cases hb : (dictInsert acc locus an).length = Q.card
      · intro _
        simp [streamGo, h, hb]
      · simp only [streamGo, if_pos h, if_neg hb, bumpRead_broke,
          List.cons_append]
        intro hbk
        exact congrArg bumpRead
          (streamGo_append_of_broke Q ls ls₂ (dictInsert acc locus an) hbk)
    · simp only [streamGo, if_neg h, bumpRead_broke, List.cons_append]
      intro hb
      exact congrArg bumpRead (streamGo_append_of_broke Q ls ls₂ acc hb)

/-! Claim C1: backend-choice transparency. -/

/-- C1 (counterexample): the three lookup backends do NOT always
return the same position→value mapping.  (i) On a reference containing
only chr1:5 ↦ 7, querying chr1:5 and chr1:6, the tabix backend maps the
absent position chr1:6 to 0 while the in-memory backend omits it.
(ii) On a reference with a duplicated locus (chr1:5↦1 then chr1:5↦2),
the streaming pass's early exit returns the first duplicate's value
while the in-memory index returns the last. -/
theorem C1_backend_equivalence_counterexample :
    dictLookup
      (query_batch [((("chr1" : String), 5), 7)]
        [(("chr1" : String), 5), (("chr1" : String), 6)])
      (("chr1" : String), 6) = some 0
    ∧ dictLookup
      (query_coverage_from_memory
        (load_coverage_into_memory (covLines [((("chr1" : String), 5), 7)]))
        {(("chr1" : String), 5), (("chr1" : String), 6)})
      (("chr1" : String), 6) = none
    ∧ dictLookup
      (query_coverage_from_memory
        (load_coverage_into_memory
          (covLines [((("chr1" : String), 5), 1),
            ((("chr1" : String), 5), 2)]))
        {(("chr1" : String), 5)}) (("chr1" : String), 5) = some 2
    ∧ dictLookup
      (query_coverage_file
        (covLines [((("chr1" : String), 5), 1), ((("chr1" : String), 5), 2)])
        {(("chr1" : String), 5)}).results (("chr1" : String), 5) = some 1 := by
  decide

/-- C1 (amended): for reference datasets in which each locus occurs at
most once, the in-memory backend and the streaming backend return
identical position→value mappings; the tabix backend agrees with them
on every queried position present in the reference, but on a position
absent from the reference it returns 0 where the other two backends
omit the position from the mapping. -/
theorem C1_backend_equivalence_amended (ref : CovRef) (Q : Finset Locus)
    (batch : List Locus) (hnd : (ref.map Prod.fst).Nodup) :
    (∀ q, dictLookup (query_coverage_from_memory
        (load_coverage_into_memory (covLines ref)) Q) q
      = dictLookup (query_coverage_file (covLines ref) Q).results q)
    ∧ (∀ q ∈ batch, q.2 ≠ 0 → ∀ v, dictLookup ref q = some v →
        dictLookup (query_batch ref batch) q = some v)
    ∧ (∀ q ∈ batch, q.2 ≠ 0 → dictLookup ref q = none →
        dictLookup (query_batch ref batch) q = some 0
        ∧ dictLookup (query_coverage_from_memory
            (load_coverage_into_memory (covLines ref)) Q) q = none) := by
  have hmem : ∀ q, dictLookup (query_coverage_from_memory
      (load_coverage_into_memory (covLines ref)) Q) q
      = if q ∈ Q then dictLookup ref q else none := by
    intro q
    rw [load_covLines ref hnd, dictLookup_query_from_memory]
  refine ⟨?_, ?_, ?_⟩
  · intro q
    have hstream := streamGo_lookup Q ref []
      (by simp) (by intro e he; exact absurd he (List.not_mem_nil e))
      (by intro e he; exact absurd he (List.not_mem_nil e)) hnd q
    rw [hmem q, query_coverage_file, hstream]
    by_cases hq : q ∈ Q
    · rw [if_pos hq, if_pos hq, dictLookup_nil, Option.none_or]
    · rw [if_neg hq, if_neg hq]
  · intro q hq h0 v hv
    rw [dictLookup_query_batch ref batch q hq h0, hv]
    rfl
  · intro q hq h0 hnone
    refine ⟨?_, ?_⟩
    · rw [dictLookup_query_batch ref batch q hq h0, hnone]
      rfl
    · rw [hmem q, hnone]
      by_cases hqQ : q ∈ Q
      · rw [if_pos hqQ]
      · rw [if_neg hqQ]

/-- C1 (witness): the amended equivalence evaluated on a concrete
one-entry reference. -/
theorem C1_backend_equivalence_amended_witness :
    (([((("chr1" : String), 5), 7)] : CovRef).map Prod.fst).Nodup
    ∧ dictLookup
      (query_coverage_from_memory
        (load_coverage_into_memory (covLines [((("chr1" : String), 5), 7)]))
        {(("chr1" : String), 5)}) (("chr1" : String), 5)
      = dictLookup
        (query_coverage_file (covLines [((("chr1" : String), 5), 7)])
          {(("chr1" : String), 5)}).results (("chr1" : String), 5) :=
  ⟨by decide,
    (C1_backend_equivalence_amended [((("chr1" : String), 5), 7)]
      {(("chr1" : String), 5)} [] (by decide)).1 (("chr1" : String), 5)⟩

/-! Claim C2: the tabix backend conflates "missing" with a stored 0. -/

/-- C2 (code bug): `query_batch` maps a position that is absent from
the reference and a position whose stored allele number is 0 to the
very same lookup result `(chrom, pos, 0)`, and the downstream tier
computation puts an AN of 0 in the `missing` tier, so a stored 0 and a
genuinely missing position land in the same tier.  Here the reference
stores chr1:5 ↦ 0 and chr1:9 is absent, yet both queries return 0. -/
theorem C2_missing_sentinel_code_bug :
    dictLookup [((("chr1" : String), 5), 0)] (("chr1" : String), 5) = some 0
    ∧ dictLookup [((("chr1" : String), 5), 0)] (("chr1" : String), 9) = none
    ∧ query_batch [((("chr1" : String), 5), 0)]
      [(("chr1" : String), 5), (("chr1" : String), 9)]
      = [((("chr1" : String), 5), 0), ((("chr1" : String), 9), 0)]
    ∧ tierOfAN 0 = Tier.missing := by
  decide

/-! Claim C8: single streaming pass, early exit. -/

/-- C8 (counterexample): the streaming pass does NOT terminate "the
moment the number of resolved query positions equals the size of the
query set": with an empty query set the resolved count (0) equals the
query-set size (0) before anything is read, yet the pass streams both
reference entries because the equality check only runs after a
successful insertion. -/
theorem C8_streaming_early_exit_counterexample :
    (query_coverage_file
      [CovLine.good (("chr1" : String), 5) 1,
        CovLine.good (("chr1" : String), 6) 2]
      (∅ : Finset Locus)).reads = 2
    ∧ (query_coverage_file
      [CovLine.good (("chr1" : String), 5) 1,
        CovLine.good (("chr1" : String), 6) 2]
      (∅ : Finset Locus)).results.length = (∅ : Finset Locus).card := by
  decide

/-- C8 (amended): the streaming pass consumes a prefix of the
reference, reading each entry at most once (the pass is fully
determined by the first `reads` entries and `reads` never exceeds the
file length); when it ends through the early-exit `break` the result
dictionary has exactly the query set's size, and nothing after the
breaking entry is ever read (appending further reference entries
changes nothing).  The early exit fires the moment an insertion brings
the resolved count to the query-set size; an empty query set never
triggers it. -/
theorem C8_streaming_single_pass_amended (Q : Finset Locus)
    (ls ls₂ : List CovLine) :
    (query_coverage_file ls Q).reads ≤ ls.length
    ∧ query_coverage_file (ls.take ((query_coverage_file ls Q).reads)) Q
      = query_coverage_file ls Q
    ∧ ((query_coverage_file ls Q).broke = true →
        (query_coverage_file ls Q).results.length = Q.card)
    ∧ ((query_coverage_file ls Q).broke = true →
        query_coverage_file (ls ++ ls₂) Q = query_coverage_file ls Q) :=
  ⟨streamGo_reads_le Q ls [], streamGo_take_reads Q ls [],
    streamGo_broke_card Q ls [],
    fun h => streamGo_append_of_broke Q ls ls₂ [] h⟩

/-- C8 (witness): a concrete pass that breaks on its first entry and
ignores a subsequently appended entry. -/
theorem C8_streaming_single_pass_amended_witness :
    (query_coverage_file
      [CovLine.good (("chr1" : String), 5) 1,
        CovLine.good (("chr1" : String), 6) 2]
      {(("chr1" : String), 5)}).broke = true
    ∧ query_coverage_file
      ([CovLine.good (("chr1" : String), 5) 1,
        CovLine.good (("chr1" : String), 6) 2] ++
        [CovLine.good (("chr1" : String), 7) 3])
      {(("chr1" : String), 5)}
      = query_coverage_file
        [CovLine.good (("chr1" : String), 5) 1,
          CovLine.good (("chr1" : String), 6) 2]
        {(("chr1" : String), 5)} :=
  ⟨by decide,
    (C8_streaming_single_pass_amended {(("chr1" : String), 5)}
      [CovLine.good (("chr1" : String), 5) 1,
        CovLine.good (("chr1" : String), 6) 2]
      [CovLine.good (("chr1" : String), 7) 3]).2.2.2 (by decide)⟩

/-! Scorer lemmas (module 08). -/

/-- The events a single batch iteration appends. -/
theorem scoreStep_events (oracle : α → Except String β) (items : List α)
    (bs : Nat) (st : RunAcc α β) (i : Nat) :
    (scoreStep oracle items bs st i).events =
      st.events ++
        (if (batchSuccesses oracle (batchOf items bs i)).isEmpty then []
          else [BatchEvent.artifact i
            (batchSuccesses oracle (batchOf items bs i))]) ++
        (if (i + 1) % 10 = 0 then
          [BatchEvent.checkpoint i
            (st.summaries ++ batchSuccesses oracle (batchOf items bs i))]
        else []) := rfl

theorem artifactIndices_scoreStep (oracle : α → Except String β)
    (items : List α) (bs : Nat) (st : RunAcc α β) (i : Nat) :
    artifactIndices (scoreStep oracle items bs st i) =
      artifactIndices st ++
        (if (batchSuccesses oracle (batchOf items bs i)).isEmpty then []
          else [i]) := by
  unfold artifactIndices
  rw [scoreStep_events, List.filterMap_append, List.filterMap_append]
  by_cases hs : (batchSuccesses oracle (batchOf items bs i)).isEmpty
  · rw [if_pos hs, if_pos hs]
    by_cases hc : (i + 1) % 10 = 0
    · rw [if_pos hc]
      simp
    · rw [if_neg hc]
      simp
  · rw [if_neg hs, if_neg hs]
    by_cases hc : (i + 1) % 10 = 0
    · rw [if_pos hc]
      simp
    · rw [if_neg hc]
      simp

theorem foldl_scoreStep_artifacts (oracle : α → Except String β)
    (items : List α) (bs : Nat) :
    ∀ (idxs : List Nat) (st : RunAcc α β),
      artifactIndices (idxs.foldl (scoreStep oracle items bs) st) =
        artifactIndices st ++ idxs.filter
          (fun i => !(batchSuccesses oracle (batchOf items bs i)).isEmpty)
  | [], st => by simp
  | i :: rest, st => by
    rw [List.foldl_cons,
      foldl_scoreStep_artifacts oracle items bs rest _,
      artifactIndices_scoreStep, List.filter_cons]
    by_cases hs : (batchSuccesses oracle (batchOf items bs i)).isEmpty
    · rw [if_pos hs]
      simp [hs]
    · rw [if_neg hs]
      simp [hs]

theorem foldl_scoreStep_ckpt_mod (oracle : α → Except String β)
    (items : List α) (bs : Nat) :
    ∀ (idxs : List Nat) (st : RunAcc α β),
      (∀ i p, BatchEvent.checkpoint i p ∈ st.events → (i + 1) % 10 = 0) →
      ∀ i p, BatchEvent.checkpoint i p ∈
          (idxs.foldl (scoreStep oracle items bs) st).events →
        (i + 1) % 10 = 0
  | [], st, hst => hst
  | j :: rest, st, hst => by
    rw [List.foldl_cons]
    refine foldl_scoreStep_ckpt_mod oracle items bs rest _ ?_
    intro i p hmem
    rw [scoreStep_events] at hmem
    rcases List.mem_append.mp hmem with hmem | hmem
    · rcases List.mem_append.mp hmem with hmem | hmem
      · exact hst i p hmem
      · by_cases hs : (batchSuccesses oracle (batchOf items bs j)).isEmpty
        · rw [if_pos hs] at hmem
          exact absurd hmem (List.not_mem_nil _)
        · rw [if_neg hs] at hmem
          simp only [List.mem_singleton] at hmem
          exact absurd hmem (by simp)
    · by_cases hc : (j + 1) % 10 = 0
      · rw [if_pos hc] at hmem
        simp only [List.mem_singleton] at hmem
        have : i = j := by
          injection hmem with h1 h2
        rw [this]
        exact hc
      · rw [if_neg hc] at hmem
        exact absurd hmem (List.not_mem_nil _)

/-- The write-ordering relation: a checkpoint written at batch `i` may
precede a batch artifact only when that artifact belongs to a strictly
later batch. -/
def ckptArtOrder (e e' : BatchEvent β) : Prop :=
  ∀ i p b rows, e = BatchEvent.checkpoint i p →
    e' = BatchEvent.artifact b rows → i < b

theorem foldl_scoreStep_pairwise (oracle : α → Except String β)
    (items : List α) (bs : Nat) :
    ∀ (idxs : List Nat) (st : RunAcc α β),
      idxs.Pairwise (· < ·) →
      (∀ i p, BatchEvent.checkpoint i p ∈ st.events → ∀ j ∈ idxs, i < j) →
      st.events.Pairwise (ckptArtOrder (β := β)) →
      ((idxs.foldl (scoreStep oracle items bs) st).events).Pairwise
        (ckptArtOrder (β := β))
  | [], _, _, _, hpw => hpw
  | j :: rest, st, hsorted, hinv, hpw => by
    rw [List.foldl_cons]
    have hjrest : ∀ k ∈ rest, j < k :=
      fun k hk => (List.pairwise_cons.mp hsorted).1 k hk
    have hsorted' : rest.Pairwise (· < ·) :=
      (List.pairwise_cons.mp hsorted).2
    refine foldl_scoreStep_pairwise oracle items bs rest _ hsorted' ?_ ?_
    · intro i p hmem k hk
      rw [scoreStep_events] at hmem
      rcases List.mem_append.mp hmem with hmem | hmem
      · rcases List.mem_append.mp hmem with hmem | hmem
        · exact hinv i p hmem k (List.mem_cons_of_mem _ hk)
        · by_cases hs : (batchSuccesses oracle (batchOf items bs j)).isEmpty
          · rw [if_pos hs] at hmem
            exact absurd hmem (List.not_mem_nil _)
          · rw [if_neg hs] at hmem
            simp only [List.mem_singleton] at hmem
            exact absurd hmem (by simp)
      · by_cases hc : (j + 1) % 10 = 0
        · rw [if_pos hc] at hmem
          simp only [List.mem_singleton] at hmem
          have hij : i = j := by
            injection hmem with h1 h2
          rw [hij]
          exact hjrest k hk
        · rw [if_neg hc] at hmem
          exact absurd hmem (List.not_mem_nil _)
    · rw [scoreStep_events, List.append_assoc]
      rw [List.pairwise_append]
      refine ⟨hpw, ?_, ?_⟩
      · by_cases hs : (batchSuccesses oracle (batchOf items bs j)).isEmpty <;>
          by_cases hc : (j + 1) % 10 = 0 <;>
            simp [hs, hc, ckptArtOrder, List.pairwise_cons]
      · intro a ha b hb
        intro i p b' rows hci hab
        subst hci
        subst hab
        rcases List.mem_append.mp hb with hb | hb
        · by_cases hs : (batchSuccesses oracle (batchOf items bs j)).isEmpty
          · rw [if_pos hs] at hb
            exact absurd hb (List.not_mem_nil _)
          · rw [if_neg hs] at hb
            simp only [List.mem_singleton] at hb
            have hbj : b' = j := by
              injection hb with h1 h2
            rw [hbj]
            exact hinv i p ha j (List.mem_cons_self _ _)
        · by_cases hc : (j + 1) % 10 = 0
          · rw [if_pos hc] at hb
            simp only [List.mem_singleton] at hb
            exact absurd hb (by simp)
          · rw [if_neg hc] at hb
            exact absurd hb (List.not_mem_nil _)

theorem runIndices_pairwise (items : List α) (bs r : Nat) :
    (runIndices items bs r).Pairwise (· < ·) :=
  List.Pairwise.sublist (List.drop_sublist r _)
    (List.pairwise_lt_range _)

theorem runIndices_nodup (items : List α) (bs r : Nat) :
    (runIndices items bs r).Nodup :=
  List.Nodup.sublist (List.drop_sublist r _) (List.nodup_range _)

/-! Claim C3: idempotent resume with an identical final summary. -/

/-- C3 (code bug): resuming after batch 0 (resume point 1, batch size
2, four always-succeeding items) re-executes only batch 1 — the
re-execution half of the claim holds — but the resumed run's final
summary covers only the items of batches ≥ 1 (["c","d"]), whereas the
uninterrupted run's summary covers all four items: `main` restarts with
`all_summaries = []` and never reads `summary_checkpoint.tsv` or the
parquet partitions back, so the summaries of pre-crash batches are
silently dropped from `predictions_summary.tsv`. -/
theorem C3_resume_drops_earlier_summaries :
    runIndices (["a", "b", "c", "d"] : List String) 2 1 = [1]
    ∧ (scoreRun (fun s => (Except.ok s : Except String String))
        ["a", "b", "c", "d"] 2 1).summaries = ["c", "d"]
    ∧ (scoreRun (fun s => (Except.ok s : Except String String))
        ["a", "b", "c", "d"] 2 0).summaries = ["a", "b", "c", "d"]
    ∧ (scoreRun (fun s => (Except.ok s : Except String String))
        ["a", "b", "c", "d"] 2 1).summaries ≠
      (scoreRun (fun s => (Except.ok s : Except String String))
        ["a", "b", "c", "d"] 2 0).summaries := by
  decide

/-! Claim C4: the durable checkpoint and the write-then-checkpoint
order. -/

/-- C4 (counterexample): the durable checkpoint is not read at startup
to determine the resume point.  A prior run over 20 items (batch size
1) last wrote its durable running-summary checkpoint at batch 19, yet a
restart launched with the default resume argument 0 re-executes batch 0
(its artifact is rewritten) instead of resuming at 20 = 19 + 1: the
resume point comes solely from the `--resume-from` argument, and the
checkpoint file holds a summary table, not a single integer. -/
theorem C4_resume_not_from_checkpoint_counterexample :
    lastCheckpointedAt
      (scoreRun (fun s => (Except.ok s : Except String String))
        ((List.range 20).map toString) 1 0) = some 19
    ∧ BatchEvent.artifact 0 ["0"] ∈
      (restartRun
        (scoreRun (fun s => (Except.ok s : Except String String))
          ((List.range 20).map toString) 1 0)
        (fun s => (Except.ok s : Except String String))
        ((List.range 20).map toString) 1 0).events := by
  decide

/-- C4 (amended): the durable state of a run consists of the per-batch
artifacts and a running-summary checkpoint written after every 10th
batch (holding the accumulated summary rows, not a single integer);
none of it is read at startup — a restart's behaviour is entirely
independent of the prior durable state, and the resume point is the
`--resume-from` argument.  Within a run the write-then-checkpoint order
does hold: whenever a checkpoint written at batch `i` precedes batch
`b`'s artifact in the durable write sequence, `i < b` — no checkpoint
written at or after a batch precedes that batch's artifact. -/
theorem C4_checkpoint_amended {α β : Type} (oracle : α → Except String β)
    (items : List α) (bs r : Nat) (prior₁ prior₂ : RunAcc α β)
    (hbs : 1 ≤ bs) :
    restartRun prior₁ oracle items bs r = restartRun prior₂ oracle items bs r
    ∧ (∀ i p b rows,
        [BatchEvent.checkpoint i p, BatchEvent.artifact b rows].Sublist
          (scoreRun oracle items bs r).events → i < b)
    ∧ (∀ i p, BatchEvent.checkpoint i p ∈
        (scoreRun oracle items bs r).events → (i + 1) % 10 = 0) := by
  refine ⟨rfl, ?_, ?_⟩
  · intro i p b rows hsub
    have hpw : ((scoreRun oracle items bs r).events).Pairwise
        (ckptArtOrder (β := β)) := by
      refine foldl_scoreStep_pairwise oracle items bs
        (runIndices items bs r) ⟨[], [], []⟩
        (runIndices_pairwise items bs r) ?_ List.Pairwise.nil
      intro i' p' hmem
      exact absurd hmem (List.not_mem_nil _)
    have hp2 := List.Pairwise.sublist hsub hpw
    exact (List.pairwise_cons.mp hp2).1 _ (List.mem_singleton.mpr rfl)
      i p b rows rfl rfl
  · refine foldl_scoreStep_ckpt_mod oracle items bs
      (runIndices items bs r) ⟨[], [], []⟩ ?_
    intro i p hmem
    exact absurd hmem (List.not_mem_nil _)

/-- C4 (witness): the amended ordering applied to a concrete run in
which the checkpoint written at batch 9 precedes batch 10's
artifact. -/
theorem C4_checkpoint_amended_witness :
    1 ≤ 1 ∧ (9 : Nat) < 10 :=
  ⟨by decide,
    (C4_checkpoint_amended
      (fun s => (Except.ok s : Except String String))
      ((List.range 20).map toString) 1 0 ⟨[], [], []⟩ ⟨[], [], []⟩
      (by decide)).2.1 9 ((List.range 10).map toString) 10 ["10"]
      (by decide)⟩

/-! Claim C9: one artifact per batch. -/

/-- C9 (counterexample): a batch in which every item fails writes NO
columnar artifact: with one item whose scoring call fails, the run
executes batch 0 but `score_batch_and_save` returns before the parquet
write (`if not batch_results: return [], failed`), so no artifact file
for batch 0 exists. -/
theorem C9_all_failed_batch_counterexample :
    runIndices (["x"] : List String) 1 0 = [0]
    ∧ artifactIndices
      (scoreRun (fun s => (Except.error ("bad " ++ s) :
        Except String String)) ["x"] 1 0) = [] := by
  decide

/-- C9 (amended): within one run, exactly one columnar artifact —
named by its batch index — is written for every executed batch in
which at least one item was scored successfully, in batch order; a
batch whose items all fail (empty scored result) writes no artifact;
and no batch's artifact is ever written twice in the run. -/
theorem C9_one_artifact_per_successful_batch {α β : Type}
    (oracle : α → Except String β) (items : List α) (bs r : Nat)
    (hbs : 1 ≤ bs) :
    artifactIndices (scoreRun oracle items bs r) =
      (runIndices items bs r).filter
        (fun i => !(batchSuccesses oracle (batchOf items bs i)).isEmpty)
    ∧ (artifactIndices (scoreRun oracle items bs r)).Nodup := by
  have h := foldl_scoreStep_artifacts oracle items bs
    (runIndices items bs r) ⟨[], [], []⟩
  have hz : artifactIndices (⟨[], [], []⟩ : RunAcc α β) = [] := rfl
  rw [hz, List.nil_append] at h
  have hrun : artifactIndices (scoreRun oracle items bs r) =
      (runIndices items bs r).filter
        (fun i => !(batchSuccesses oracle (batchOf items bs i)).isEmpty) := h
  refine ⟨hrun, ?_⟩
  rw [hrun]
  exact List.Nodup.filter _ (runIndices_nodup items bs r)

/-- C9 (witness): the amended statement evaluated on a concrete run in
which one of two single-item batches fails. -/
theorem C9_one_artifact_per_successful_batch_witness :
    1 ≤ 1
    ∧ (artifactIndices
        (scoreRun
          (fun s => (if s = "a" then Except.error "bad"
            else Except.ok s : Except String String)) ["a", "b"] 1 0) =
      (runIndices (["a", "b"] : List String) 1 0).filter
        (fun i => !(batchSuccesses
          (fun s => (if s = "a" then Except.error "bad"
            else Except.ok s : Except String String))
          (batchOf ["a", "b"] 1 i)).isEmpty)
      ∧ (artifactIndices
        (scoreRun
          (fun s => (if s = "a" then Except.error "bad"
            else Except.ok s : Except String String)) ["a", "b"] 1 0)).Nodup) :=
  ⟨by decide,
    C9_one_artifact_per_successful_batch
      (fun s => (if s = "a" then Except.error "bad"
        else Except.ok s : Except String String)) ["a", "b"] 1 0
      (by decide)⟩

/-! Executor lemmas (module 03). -/

/-- "The shard's external call failed": non-zero exit or timeout. -/
def callFailed : CallOutcome → Bool
  | CallOutcome.ok _ => false
  | CallOutcome.fail _ => true
  | CallOutcome.timeout => true

theorem foldl_drainStep (vcfE : Chrom → Bool) (oc : Chrom → CallOutcome)
    (bed : List BedRow) :
    ∀ (order : List Chrom) (st : ExecState),
      (order.foldl (drainStep vcfE oc bed) st).results =
        st.results ++ order.map (query_single_chromosome vcfE oc bed)
      ∧ (order.foldl (drainStep vcfE oc bed) st).failed =
        st.failed ++ order.filter
          (fun c => (query_single_chromosome vcfE oc bed c).error_msg.isSome)
      ∧ (order.foldl (drainStep vcfE oc bed) st).outRows =
        st.outRows ++ order.flatMap
          (fun c =>
            if (query_single_chromosome vcfE oc bed c).error_msg.isSome
            then []
            else (query_single_chromosome vcfE oc bed c).variants_text)
  | [], st => by simp
  | c :: rest, st => by
    have IH := foldl_drainStep vcfE oc bed rest
      (drainStep vcfE oc bed st c)
    rw [List.foldl_cons] at *
    rcases IH with ⟨h1, h2, h3⟩
    refine ⟨?_, ?_, ?_⟩
    · rw [h1, List.map_cons]
      cases herr : (query_single_chromosome vcfE oc bed c).error_msg with
      | some m =>
        rw [show drainStep vcfE oc bed st c =
          ⟨st.results ++ [query_single_chromosome vcfE oc bed c],
            st.failed ++ [c], st.outRows, st.total_variants⟩
          from by simp [drainStep, herr]]
        simp
      | none =>
        rw [show drainStep vcfE oc bed st c =
          ⟨st.results ++ [query_single_chromosome vcfE oc bed c],
            st.failed,
            st.outRows ++
              (query_single_chromosome vcfE oc bed c).variants_text,
            st.total_variants +
              (query_single_chromosome vcfE oc bed c).num_variants⟩
          from by simp [drainStep, herr]]
        simp
    · rw [h2, List.filter_cons]
      cases herr : (query_single_chromosome vcfE oc bed c).error_msg with
      | some m =>
        rw [show drainStep vcfE oc bed st c =
          ⟨st.results ++ [query_single_chromosome vcfE oc bed c],
            st.failed ++ [c], st.outRows, st.total_variants⟩
          from by simp [drainStep, herr]]
        simp [herr]
      | none =>
        rw [show drainStep vcfE oc bed st c =
          ⟨st.results ++ [query_single_chromosome vcfE oc bed c],
            st.failed,
            st.outRows ++
              (query_single_chromosome vcfE oc bed c).variants_text,
            st.total_variants +
              (query_single_chromosome vcfE oc bed c).num_variants⟩
          from by simp [drainStep, herr]]
        simp [herr]
    · rw [h3, List.flatMap_cons]
      cases herr : (query_single_chromosome vcfE oc bed c).error_msg with
      | some m =>
        rw [show drainStep vcfE oc bed st c =
          ⟨st.results ++ [query_single_chromosome vcfE oc bed c],
            st.failed ++ [c], st.outRows, st.total_variants⟩
          from by simp [drainStep, herr]]
        simp [herr]
      | none =>
        rw [show drainStep vcfE oc bed st c =
          ⟨st.results ++ [query_single_chromosome vcfE oc bed c],
            st.failed,
            st.outRows ++
              (query_single_chromosome vcfE oc bed c).variants_text,
            st.total_variants +
              (query_single_chromosome vcfE oc bed c).num_variants⟩
          from by simp [drainStep, herr]]
        simp [herr, List.append_assoc]

theorem query_single_chrom_eq (vcfE : Chrom → Bool)
    (oc : Chrom → CallOutcome) (bed : List BedRow) (c : Chrom) :
    (query_single_chromosome vcfE oc bed c).chrom = c := by
  unfold query_single_chromosome
  by_cases hv : vcfE c = false
  · rw [if_pos hv]
  · rw [if_neg hv]
    by_cases hb : bed.filter (fun r => r.chr = c) = []
    · rw [if_pos hb]
    · rw [if_neg hb]
      cases oc c <;> rfl

theorem query_single_err_iff (vcfE : Chrom → Bool)
    (oc : Chrom → CallOutcome) (bed : List BedRow) (c : Chrom)
    (hv : vcfE c = true) (hb : bed.filter (fun r => r.chr = c) ≠ []) :
    (query_single_chromosome vcfE oc bed c).error_msg.isSome =
      callFailed (oc c) := by
  unfold query_single_chromosome
  rw [if_neg (by simp [hv]), if_neg hb]
  cases oc c <;> rfl

theorem query_single_ok_text (vcfE : Chrom → Bool)
    (oc : Chrom → CallOutcome) (bed : List BedRow) (c : Chrom)
    (hv : vcfE c = true) (hb : bed.filter (fun r => r.chr = c) ≠ [])
    (rows : List GnomadRow) (hok : oc c = CallOutcome.ok rows) :
    query_single_chromosome vcfE oc bed c = ⟨c, rows, rows.length, none⟩ := by
  unfold query_single_chromosome
  rw [if_neg (by simp [hv]), if_neg hb, hok]

theorem query_single_err_len (vcfE : Chrom → Bool)
    (oc : Chrom → CallOutcome) (bed : List BedRow) (c : Chrom) :
    ∀ m, (query_single_chromosome vcfE oc bed c).error_msg = some m →
      m.length ≤ 517 := by
  intro m
  unfold query_single_chromosome
  by_cases hv : vcfE c = false
  · rw [if_pos hv]
    intro hm
    rw [← Option.some.inj hm]
    decide
  · rw [if_neg hv]
    by_cases hb : bed.filter (fun r => r.chr = c) = []
    · rw [if_pos hb]
      intro hm
      exact absurd hm (by simp)
    · rw [if_neg hb]
      cases hoc : oc c with
      | ok rows =>
        intro hm
        exact absurd hm (by simp)
      | fail stderr =>
        intro hm
        rw [← Option.some.inj hm, List.length_append]
        have h1 : ("bcftools failed: ".data).length = 17 := by decide
        have h2 : (stderr.take 500).length ≤ 500 :=
          List.length_take_le 500 stderr
        omega
      | timeout =>
        intro hm
        rw [← Option.some.inj hm]
        decide

theorem planChroms_filter_ne_nil (bed : List BedRow) (c : Chrom)
    (h : c ∈ planChroms bed) :
    (filteredBed bed).filter (fun r => r.chr = c) ≠ [] := by
  unfold planChroms at h
  rw [List.mem_dedup, List.mem_map] at h
  obtain ⟨r, hr, hrc⟩ := h
  intro hnil
  rw [List.filter_eq_nil_iff] at hnil
  exact hnil r hr (by simp [hrc])

theorem sublist_flatMap_of_mem (f : Chrom → List GnomadRow) :
    ∀ (order : List Chrom) (c : Chrom), c ∈ order →
      (f c).Sublist (order.flatMap f)
  | [], c, hc => absurd hc (List.not_mem_nil c)
  | d :: rest, c, hc => by
    rw [List.flatMap_cons]
    rcases List.mem_cons.mp hc with h | h
    · rw [h]
      exact List.sublist_append_left _ _
    · exact List.Sublist.trans (sublist_flatMap_of_mem f rest c h)
        (List.sublist_append_right _ _)

/-! Claim C5: shard failure isolation. -/

/-- C5: for every BED table, external-world behaviour and completion
order (a permutation of the planned shards), provided each planned
shard's VCF file exists: the executor drains every submitted shard and
returns exactly one result per shard (in completion order); the failure
tally equals the number of shards whose external calls failed (non-zero
exit or timeout); every successfully returned stdout row stream appears
in the merged output file regardless of sibling failures; and every
captured failure reason is bounded by 517 characters (the fixed
messages, or the 17-character bcftools marker plus at most 500
characters of truncated stderr). -/
theorem C5_shard_failure_isolation (vcfE : Chrom → Bool)
    (oc : Chrom → CallOutcome) (bed : List BedRow) (order : List Chrom)
    (horder : order.Perm (planChroms bed))
    (hvcf : ∀ c ∈ order, vcfE c = true) :
    (query_gnomad_parallel vcfE oc bed order).results.map
      (fun r => r.chrom) = order
    ∧ (query_gnomad_parallel vcfE oc bed order).failed.length =
      (order.filter (fun c => callFailed (oc c))).length
    ∧ (∀ c ∈ order, ∀ rows, oc c = CallOutcome.ok rows →
        rows.Sublist (query_gnomad_parallel vcfE oc bed order).outRows)
    ∧ (∀ res ∈ (query_gnomad_parallel vcfE oc bed order).results,
        ∀ m, res.error_msg = some m → m.length ≤ 517) := by
  obtain ⟨h1, h2, h3⟩ :=
    foldl_drainStep vcfE oc (filteredBed bed) order ⟨[], [], [], 0⟩
  have hres : (query_gnomad_parallel vcfE oc bed order).results =
      order.map (query_single_chromosome vcfE oc (filteredBed bed)) := by
    simpa using h1
  have hfail : (query_gnomad_parallel vcfE oc bed order).failed =
      order.filter
        (fun c => (query_single_chromosome vcfE oc
          (filteredBed bed) c).error_msg.isSome) := by
    simpa using h2
  have hout : (query_gnomad_parallel vcfE oc bed order).outRows =
      order.flatMap
        (fun c =>
          if (query_single_chromosome vcfE oc
            (filteredBed bed) c).error_msg.isSome then []
          else (query_single_chromosome vcfE oc
            (filteredBed bed) c).variants_text) := by
    simpa using h3
  have hbedne : ∀ c ∈ order,
      (filteredBed bed).filter (fun r => r.chr = c) ≠ [] := by
    intro c hc
    exact planChroms_filter_ne_nil bed c (horder.mem_iff.mp hc)
  refine ⟨?_, ?_, ?_, ?_⟩
  · rw [hres, List.map_map]
    have hfun : ∀ c ∈ order,
        (ShardResult.chrom ∘
          query_single_chromosome vcfE oc (filteredBed bed)) c = id c := by
      intro c _
      exact query_single_chrom_eq vcfE oc (filteredBed bed) c
    rw [List.map_congr_left hfun, List.map_id]
  · rw [hfail]
    have hcongr : ∀ c ∈ order,
        ((query_single_chromosome vcfE oc
          (filteredBed bed) c).error_msg.isSome) = callFailed (oc c) := by
      intro c hc
      exact query_single_err_iff vcfE oc (filteredBed bed) c
        (hvcf c hc) (hbedne c hc)
    rw [List.filter_congr hcongr]
  · intro c hc rows hok
    rw [hout]
    have hq := query_single_ok_text vcfE oc (filteredBed bed) c
      (hvcf c hc) (hbedne c hc) rows hok
    have hsub := sublist_flatMap_of_mem
      (fun c =>
        if (query_single_chromosome vcfE oc
          (filteredBed bed) c).error_msg.isSome then []
        else (query_single_chromosome vcfE oc
          (filteredBed bed) c).variants_text) order c hc
    simpa [hq] using hsub
  · intro res hresm m hm
    rw [hres] at hresm
    obtain ⟨c, _, hce⟩ := List.mem_map.mp hresm
    rw [← hce] at hm
    exact query_single_err_len vcfE oc (filteredBed bed) c m hm

/-- C5 (witness): two planned shards, chr2's call failing, evaluated
concretely: one result per shard in order. -/
theorem C5_shard_failure_isolation_witness :
    (∀ c ∈ planChroms [⟨"chr1".data, 100⟩, ⟨"chr2".data, 200⟩],
      (fun _ : Chrom => true) c = true)
    ∧ (query_gnomad_parallel (fun _ : Chrom => true)
      (fun c => if c = "chr2".data then CallOutcome.fail "boom".data
        else CallOutcome.ok [])
      [⟨"chr1".data, 100⟩, ⟨"chr2".data, 200⟩]
      (planChroms [⟨"chr1".data, 100⟩, ⟨"chr2".data, 200⟩])).results.map
        (fun r => r.chrom)
      = planChroms [⟨"chr1".data, 100⟩, ⟨"chr2".data, 200⟩] :=
  ⟨by decide,
    (C5_shard_failure_isolation (fun _ : Chrom => true)
      (fun c => if c = "chr2".data then CallOutcome.fail "boom".data
        else CallOutcome.ok [])
      [⟨"chr1".data, 100⟩, ⟨"chr2".data, 200⟩]
      (planChroms [⟨"chr1".data, 100⟩, ⟨"chr2".data, 200⟩])
      (List.Perm.refl _) (by decide)).1⟩

/-! Merger lemmas (module 03). -/

/-- The merge key of a gnomAD row. -/
def gnKey (g : GnomadRow) : Chrom × Nat × List Char × List Char :=
  (g.chr, g.pos, g.ref, g.alt)

theorem length_filter_key_le_one :
    ∀ (gn : List GnomadRow), (gn.map gnKey).Nodup →
    ∀ k, (gn.filter (fun g => gnKey g = k)).length ≤ 1
  | [], _, k => by simp
  | g :: rest, hnd, k => by
    have hl := List.nodup_cons.mp
      (show (gnKey g :: rest.map gnKey).Nodup by simpa using hnd)
    rw [List.filter_cons]
    by_cases hk : gnKey g = k
    · rw [if_pos (by simpa using hk)]
      have hrest : rest.filter (fun g => gnKey g = k) = [] := by
        rw [List.filter_eq_nil_iff]
        intro a ha hak
        have hak' : gnKey a = k := by simpa using hak
        apply hl.1
        rw [hk.trans hak'.symm]
        exact List.mem_map.mpr ⟨a, ha, rfl⟩
      rw [hrest]
      simp
    · rw [if_neg (by simpa using hk)]
      exact length_filter_key_le_one rest hl.2 k

theorem mergeMatch_filter_eq (gn : List GnomadRow) (p : PathRow) :
    gn.filter
      (fun g => g.chr = p.chr ∧ g.pos = p.pos ∧ g.ref = p.ref ∧
        g.alt = p.alt) =
    gn.filter (fun g => gnKey g = (p.chr, p.pos, p.ref, p.alt)) := by
  apply List.filter_congr
  intro g _
  apply decide_eq_decide.mpr
  simp [gnKey, Prod.ext_iff]

theorem leftMergeFill_count (gn : List GnomadRow)
    (hnd : (gn.map gnKey).Nodup) :
    ∀ (paths : List PathRow) (p : PathRow),
      ((leftMergeFill paths gn).filter (fun r => r.path = p)).length =
        (paths.filter (fun q => q = p)).length
  | [], p => by simp [leftMergeFill]
  | q :: rest, p => by
    unfold leftMergeFill
    rw [List.flatMap_cons, List.filter_append, List.length_append]
    have IH := leftMergeFill_count gn hnd rest p
    unfold leftMergeFill at IH
    rw [IH, List.filter_cons]
    cases hms : gn.filter
        (fun g => g.chr = q.chr ∧ g.pos = q.pos ∧ g.ref = q.ref ∧
          g.alt = q.alt) with
    | nil =>
      by_cases hqp : q = p
      · subst hqp
        simp
        omega
      · simp [hqp]
    | cons g ms' =>
      have hle : (g :: ms').length ≤ 1 := by
        rw [← hms, mergeMatch_filter_eq]
        exact length_filter_key_le_one gn hnd (q.chr, q.pos, q.ref, q.alt)
      have hms0 : ms' = [] := by
        cases ms' with
        | nil => rfl
        | cons x xs => simp at hle
      subst hms0
      by_cases hqp : q = p
      · subst hqp
        simp
        omega
      · simp [hqp]

theorem leftMergeFill_unmatched (paths : List PathRow)
    (gn : List GnomadRow) :
    ∀ row ∈ leftMergeFill paths gn, row.gnomadKey = none →
      row.af = 0 ∧ row.ac = 0 ∧ row.an = 0 ∧ row.nhomalt = 0 := by
  intro row hrow hkey
  unfold leftMergeFill at hrow
  obtain ⟨p, _, hmem⟩ := List.mem_flatMap.mp hrow
  revert hmem
  cases hms : gn.filter
      (fun g => g.chr = p.chr ∧ g.pos = p.pos ∧ g.ref = p.ref ∧
        g.alt = p.alt) with
  | nil =>
    intro hmem
    simp only [List.mem_singleton] at hmem
    rw [hmem]
    exact ⟨rfl, rfl, rfl, rfl⟩
  | cons g ms' =>
    intro hmem
    obtain ⟨g', _, hg'⟩ := List.mem_map.mp hmem
    rw [← hg'] at hkey
    exact absurd hkey (by simp)

theorem leftMergeFill_matched_chr (paths : List PathRow)
    (gn : List GnomadRow) :
    ∀ row ∈ leftMergeFill paths gn, ∀ k, row.gnomadKey = some k →
      ∃ g ∈ gn, row.path.chr = g.chr := by
  intro row hrow k hkey
  unfold leftMergeFill at hrow
  obtain ⟨p, _, hmem⟩ := List.mem_flatMap.mp hrow
  revert hmem
  cases hms : gn.filter
      (fun g => g.chr = p.chr ∧ g.pos = p.pos ∧ g.ref = p.ref ∧
        g.alt = p.alt) with
  | nil =>
    intro hmem
    simp only [List.mem_singleton] at hmem
    rw [hmem] at hkey
    exact absurd hkey (by simp)
  | cons g ms' =>
    intro hmem
    obtain ⟨g', hg'mem, hg'⟩ := List.mem_map.mp hmem
    have hg'gn : g' ∈ gn := by
      have : g' ∈ g :: ms' := hg'mem
      rw [← hms] at this
      exact List.mem_of_mem_filter this
    have hchr : g'.chr = p.chr := by
      have : g' ∈ gn.filter
          (fun g => g.chr = p.chr ∧ g.pos = p.pos ∧ g.ref = p.ref ∧
            g.alt = p.alt) := by
        rw [hms]
        exact hg'mem
      have hpred := List.of_mem_filter this
      exact (of_decide_eq_true hpred).1
    refine ⟨g', hg'gn, ?_⟩
    rw [← hg']
    exact hchr.symm

/-! Claim C6: the merged table, its row multiplicity, and the two
"missing" reasons. -/

/-- C6 (counterexample): the two "missing" reasons are NOT
distinguishable in the merged output, and an input row can appear more
than once.  End to end: with a BED over chr1 and chr2 where the chr2
shard's external call fails and chr1's succeeds with one row at
position 100, the merged table for the path rows (chr2:200 — missing
because its shard failed) and (chr1:999 — queried successfully but
absent from the reference) carries the identical annotation
(no key, AF 0, AC 0, AN 0, nhomalt 0) on both rows.  Separately, a
gnomAD table holding the same key twice duplicates the matching input
row in the merge (2 output rows for 1 input row). -/
theorem C6_missing_reasons_counterexample :
    (query_gnomad_parallel (fun _ : Chrom => true)
      (fun c => if c = "chr2".data then CallOutcome.fail "boom".data
        else CallOutcome.ok
          [⟨"chr1".data, 100, "A".data, "T".data, (1 : ℚ) / 2, 3, 10, 1⟩])
      [⟨"chr1".data, 100⟩, ⟨"chr2".data, 200⟩]
      (planChroms [⟨"chr1".data, 100⟩, ⟨"chr2".data, 200⟩])).failed
      = ["chr2".data]
    ∧ (match_paths_to_gnomad
      [⟨"chr2".data, 200, "G".data, "C".data⟩,
        ⟨"chr1".data, 999, "A".data, "T".data⟩]
      (query_gnomad_parallel (fun _ : Chrom => true)
        (fun c => if c = "chr2".data then CallOutcome.fail "boom".data
          else CallOutcome.ok
            [⟨"chr1".data, 100, "A".data, "T".data, (1 : ℚ) / 2, 3, 10, 1⟩])
        [⟨"chr1".data, 100⟩, ⟨"chr2".data, 200⟩]
        (planChroms [⟨"chr1".data, 100⟩, ⟨"chr2".data, 200⟩])).outRows).map
        MergedRow.annotation
      = [⟨none, 0, 0, 0, 0⟩, ⟨none, 0, 0, 0, 0⟩]
    ∧ (match_paths_to_gnomad [⟨"chr1".data, 100, "A".data, "T".data⟩]
      [⟨"chr1".data, 100, "A".data, "T".data, (1 : ℚ) / 2, 3, 10, 1⟩,
        ⟨"chr1".data, 100, "A".data, "T".data, (1 : ℚ) / 2, 3, 10, 1⟩]).length
      = 2 := by
  decide

/-- C6 (amended): when the annotation table has at most one row per
(chr, pos, ref, alt) key, every (normalized) input row appears in the
merged table exactly as often as in the input — with its resolved
annotation or zero-filled; but the two "missing" reasons are NOT
distinguishable there: every unmatched row, whether its shard failed or
its position is simply absent from the reference, carries the identical
annotation (no gnomAD key, AF 0, AC 0, AN 0, nhomalt 0); shard failures
surface only in the executor's tally and log. -/
theorem C6_merge_rows_amended (paths : List PathRow)
    (gn : List GnomadRow) (hnd : (gn.map gnKey).Nodup) :
    (∀ p, ((match_paths_to_gnomad paths gn).filter
        (fun r => r.path = p)).length =
      ((normalizePaths paths).filter (fun q => q = p)).length)
    ∧ (∀ row ∈ match_paths_to_gnomad paths gn, row.gnomadKey = none →
        row.af = 0 ∧ row.ac = 0 ∧ row.an = 0 ∧ row.nhomalt = 0)
    ∧ (∀ row row', row ∈ match_paths_to_gnomad paths gn →
        row' ∈ match_paths_to_gnomad paths gn →
        row.gnomadKey = none → row'.gnomadKey = none →
        row.annotation = row'.annotation) := by
  refine ⟨?_, ?_, ?_⟩
  · intro p
    exact leftMergeFill_count gn hnd (normalizePaths paths) p
  · exact leftMergeFill_unmatched (normalizePaths paths) gn
  · intro row row' hrow hrow' hz hz'
    have h1 := leftMergeFill_unmatched (normalizePaths paths) gn row hrow hz
    have h2 := leftMergeFill_unmatched (normalizePaths paths) gn row' hrow' hz'
    unfold MergedRow.annotation
    rw [hz, hz', h1.1, h2.1, h1.2.1, h2.2.1, h1.2.2.1, h2.2.2.1,
      h1.2.2.2, h2.2.2.2]

/-- C6 (witness): the amended row-multiplicity property evaluated on a
one-row paths table against a one-row annotation table. -/
theorem C6_merge_rows_amended_witness :
    (([⟨"chr1".data, 100, "A".data, "T".data, (1 : ℚ) / 2, 3, 10, 1⟩]
      : List GnomadRow).map gnKey).Nodup
    ∧ ((match_paths_to_gnomad [⟨"chr1".data, 100, "A".data, "T".data⟩]
      [⟨"chr1".data, 100, "A".data, "T".data, (1 : ℚ) / 2, 3, 10, 1⟩]).filter
        (fun r => r.path = ⟨"chr1".data, 100, "A".data, "T".data⟩)).length =
      ((normalizePaths [⟨"chr1".data, 100, "A".data, "T".data⟩]).filter
        (fun q => q = ⟨"chr1".data, 100, "A".data, "T".data⟩)).length :=
  ⟨by decide,
    (C6_merge_rows_amended [⟨"chr1".data, 100, "A".data, "T".data⟩]
      [⟨"chr1".data, 100, "A".data, "T".data, (1 : ℚ) / 2, 3, 10, 1⟩]
      (by decide)).1 ⟨"chr1".data, 100, "A".data, "T".data⟩⟩

/-! Planner lemmas (module 03). -/

theorem availableChroms_startsWith :
    ∀ c ∈ availableChroms, startsWithChr c = true := by
  decide

theorem availableChroms_length_le :
    ∀ c ∈ availableChroms, c.length ≤ 5 := by
  decide

theorem startsWithChr_length (c : Chrom) (h : startsWithChr c = true) :
    3 ≤ c.length := by
  unfold startsWithChr at h
  have h3 : (c.take 3).length = 3 := by
    rw [show c.take 3 = ['c', 'h', 'r'] from by simpa using h]
    rfl
  rw [List.length_take] at h3
  omega

theorem prefixNormalize_not_available (c : Chrom)
    (h : prefixNormalize c ∉ availableChroms) :
    c ∉ availableChroms ∧ chrAdd c ∉ availableChroms := by
  constructor
  · intro hc
    apply h
    unfold prefixNormalize
    rw [if_pos (availableChroms_startsWith c hc)]
    exact hc
  · intro hca
    by_cases hsw : startsWithChr c = true
    · have hlen := availableChroms_length_le (chrAdd c) hca
      have h3 : 3 ≤ c.length := startsWithChr_length c hsw
      have hadd : (chrAdd c).length = c.length + 3 := by
        simp [chrAdd]
      omega
    · apply h
      unfold prefixNormalize
      rw [if_neg hsw]
      exact hca

theorem filteredBed_available (bed : List BedRow) :
    ∀ r ∈ filteredBed bed, r.chr ∈ availableChroms := by
  intro r hr
  simp only [filteredBed, List.mem_filter] at hr
  have h3 := hr.2
  simp only [List.mem_filter, decide_eq_true_eq] at h3
  exact h3.2

theorem planChroms_available (bed : List BedRow) :
    ∀ c ∈ planChroms bed, c ∈ availableChroms := by
  intro c hc
  unfold planChroms at hc
  rw [List.mem_dedup, List.mem_map] at hc
  obtain ⟨r, hr, hrc⟩ := hc
  rw [← hrc]
  exact filteredBed_available bed r hr

/-! Claim C10: only canonical chromosomes are dispatched. -/

/-- C10: the planner keeps only the 24 canonical chromosomes chr1-chr22,
chrX, chrY.  For any input BED row whose prefix-normalized chromosome
name is outside that set, neither its unprefixed nor its prefixed form
survives the filter, so the row is removed before any external call;
every dispatched shard's chromosome is canonical; and given that the
annotation rows produced by the dispatched shards carry canonical
chromosome names, a paths row whose (post-normalization) chromosome
name is non-canonical can appear in the final merge only as an
unmatched, default-filled row. -/
theorem C10_canonical_chromosome_filter (bed : List BedRow) (r : BedRow)
    (paths : List PathRow) (gn : List GnomadRow)
    (hpre : prefixNormalize r.chr ∉ availableChroms)
    (hgn : ∀ g ∈ gn, g.chr ∈ availableChroms) :
    ((⟨r.chr, r.start⟩ : BedRow) ∉ filteredBed bed
      ∧ (⟨chrAdd r.chr, r.start⟩ : BedRow) ∉ filteredBed bed)
    ∧ (∀ c ∈ planChroms bed, c ∈ availableChroms)
    ∧ (∀ row ∈ match_paths_to_gnomad paths gn,
        row.path.chr ∉ availableChroms →
        row.gnomadKey = none ∧ row.af = 0 ∧ row.ac = 0 ∧ row.an = 0 ∧
          row.nhomalt = 0) := by
  obtain ⟨hc, hca⟩ := prefixNormalize_not_available r.chr hpre
  refine ⟨⟨?_, ?_⟩, planChroms_available bed, ?_⟩
  · intro hmem
    exact hc (filteredBed_available bed ⟨r.chr, r.start⟩ hmem)
  · intro hmem
    exact hca (filteredBed_available bed ⟨chrAdd r.chr, r.start⟩ hmem)
  · intro row hrow hchr
    cases hk : row.gnomadKey with
    | some k =>
      obtain ⟨g, hg, hgc⟩ :=
        leftMergeFill_matched_chr (normalizePaths paths) gn row hrow k hk
      exact absurd (hgc ▸ hgn g hg) hchr
    | none =>
      obtain ⟨h1, h2, h3, h4⟩ :=
        leftMergeFill_unmatched (normalizePaths paths) gn row hrow hk
      exact ⟨rfl, h1, h2, h3, h4⟩

/-- C10 (witness): a scaffold row (chrUn_x) is dropped by the planner
on a concrete BED. -/
theorem C10_canonical_chromosome_filter_witness :
    prefixNormalize ("chrUn_x".data) ∉ availableChroms
    ∧ (⟨"chrUn_x".data, 5⟩ : BedRow) ∉
      filteredBed [⟨"chr1".data, 100⟩, ⟨"chrUn_x".data, 5⟩] :=
  ⟨by decide,
    ((C10_canonical_chromosome_filter
      [⟨"chr1".data, 100⟩, ⟨"chrUn_x".data, 5⟩] ⟨"chrUn_x".data, 5⟩
      [] [] (by decide) (by decide)).1).1⟩

/-! Constraint-statistics lemmas (module 07). -/

theorem binomCdf_term_nonneg (n i : Nat) (p : ℚ) (hp0 : 0 ≤ p)
    (hp1 : p ≤ 1) :
    0 ≤ (n.choose i : ℚ) * p ^ i * (1 - p) ^ (n - i) := by
  apply mul_nonneg
  · apply mul_nonneg
    · exact Nat.cast_nonneg _
    · exact pow_nonneg hp0 i
  · apply pow_nonneg
    linarith

theorem binomCdf_mono (n : Nat) (p : ℚ) (hp0 : 0 ≤ p) (hp1 : p ≤ 1)
    (k k' : Nat) (hk : k ≤ k') : binomCdf k n p ≤ binomCdf k' n p := by
  unfold binomCdf
  apply Finset.sum_le_sum_of_subset_of_nonneg
  · apply Finset.range_subset.mpr
    omega
  · intro i _ _
    exact binomCdf_term_nonneg n i p hp0 hp1

theorem binomCdf_n_zero (k : Nat) (p : ℚ) : binomCdf k 0 p = 1 := by
  unfold binomCdf
  rw [Finset.sum_eq_single 0]
  · simp
  · intro i _ hne
    rw [Nat.choose_eq_zero_of_lt (Nat.pos_of_ne_zero hne)]
    simp
  · intro hn
    exact absurd (Finset.mem_range.mpr (Nat.succ_pos k)) hn

theorem binomCdf_p_zero (k n : Nat) : binomCdf k n 0 = 1 := by
  unfold binomCdf
  rw [Finset.sum_eq_single 0]
  · simp
  · intro i _ hne
    rw [zero_pow hne]
    ring
  · intro hn
    exact absurd (Finset.mem_range.mpr (Nat.succ_pos k)) hn

theorem baselineRate_nonneg (pbh obh : List (Nat × Finset Locus))
    (possible observed : Finset Locus) :
    0 ≤ baselineRate pbh obh possible observed := by
  unfold baselineRate
  by_cases h3 : (pbh.find? (fun e => e.1 = 3)).isSome
  · rw [if_pos h3]
    by_cases hbp : 0 < (lookupSet pbh 3).card
    · rw [if_pos hbp]
      apply div_nonneg <;> exact Nat.cast_nonneg _
    · rw [if_neg hbp]
  · rw [if_neg h3]
    by_cases hpc : 0 < possible.card
    · rw [if_pos hpc]
      apply div_nonneg <;> exact Nat.cast_nonneg _
    · rw [if_neg hpc]

/-! Claim C7: constraint/depletion edge cases. -/

/-- C7 (counterexample): (i) a stratum with zero possible positions is
NOT excluded from the output — `compute_constraint_statistics` emits a
(guarded) row for it; (ii) the zero-observed p-value is not always "the
smallest representable p-value, never NaN": when the baseline stratum's
observed set is larger than its possible set the baseline rate exceeds
1, `scipy.stats.binom.cdf` rejects it and returns NaN, so the
zero-observed stratum (Hamming 1) reports a NaN p-value. -/
theorem C7_constraint_edge_cases_counterexample :
    (compute_constraint_statistics [(3, (∅ : Finset Locus))] [] []).length
      = 1
    ∧ (compute_constraint_statistics
        [(1, ({(("chrA" : String), 1)} : Finset Locus)),
          (3, ({(("chrB" : String), 2)} : Finset Locus))]
        [(1, (∅ : Finset Locus)),
          (3, ({(("chrB" : String), 2), (("chrC" : String), 3)} :
            Finset Locus))]
        []).map (fun r => (r.observed, r.binomial_p))
      = [(0, none), (2, none)] := by
  refine ⟨by decide, ?_⟩
  simp [compute_constraint_statistics, constraintRow, baselineRate,
    lookupSet, scipy_binom_cdf, List.find?]

/-- C7 (amended): provided the baseline rate is a probability (the
baseline stratum's observed count does not exceed its possible count —
true of the pipeline's inputs, where observed variants sit at possible
positions), each emitted stratum row satisfies: zero observed yields
fold depletion = +∞ (no division error) and a defined (never-NaN)
p-value that is the smallest attainable value of the binomial CDF over
all possible observed counts; and a stratum with zero possible
positions is emitted as a guarded row (expected 0, p-value 1, mean AN
0) rather than excluded — every input stratum, empty or not, produces
exactly one output row and no division by zero. -/
theorem C7_constraint_edge_cases_amended (pbh obh : List (Nat × Finset Locus))
    (cov : CovRef) (h : Nat) (possible : Finset Locus)
    (hmem : (h, possible) ∈ pbh)
    (hrate : baselineRate pbh obh possible (lookupSet obh h) ≤ 1) :
    constraintRow pbh obh cov h possible ∈
      compute_constraint_statistics pbh obh cov
    ∧ (compute_constraint_statistics pbh obh cov).length = pbh.length
    ∧ ((constraintRow pbh obh cov h possible).observed = 0 →
        (constraintRow pbh obh cov h possible).fold_depletion = ⊤)
    ∧ ((constraintRow pbh obh cov h possible).observed = 0 →
        ∃ q, (constraintRow pbh obh cov h possible).binomial_p = some q
          ∧ ∀ k, q ≤ binomCdf k possible.card
              (baselineRate pbh obh possible (lookupSet obh h)))
    ∧ (possible = ∅ →
        (constraintRow pbh obh cov h possible).expected_uniform = 0
        ∧ (constraintRow pbh obh cov h possible).binomial_p = some 1
        ∧ (constraintRow pbh obh cov h possible).mean_an = 0
        ∧ (constraintRow pbh obh cov h
            possible).effective_coverage_fraction = 0) := by
  have hnn := baselineRate_nonneg pbh obh possible (lookupSet obh h)
  refine ⟨?_, ?_, ?_, ?_, ?_⟩
  · unfold compute_constraint_statistics
    exact List.mem_map.mpr ⟨(h, possible), hmem, rfl⟩
  · unfold compute_constraint_statistics
    exact List.length_map _ _
  · intro h0
    simp only [constraintRow] at h0 ⊢
    rw [if_neg (by omega)]
  · intro h0
    simp only [constraintRow] at h0 ⊢
    by_cases hg : 0 < possible.card ∧
        0 < baselineRate pbh obh possible (lookupSet obh h)
    · rw [if_pos hg]
      unfold scipy_binom_cdf
      rw [if_pos ⟨hnn, hrate⟩]
      refine ⟨binomCdf (lookupSet obh h).card possible.card
        (baselineRate pbh obh possible (lookupSet obh h)), rfl, ?_⟩
      intro k
      rw [h0]
      exact binomCdf_mono possible.card _ hnn hrate 0 k (Nat.zero_le k)
    · rw [if_neg hg]
      refine ⟨1, rfl, ?_⟩
      intro k
      rcases Decidable.not_and_iff_or_not.mp hg with hpc | hr
      · have hc0 : possible.card = 0 := by omega
        rw [hc0, binomCdf_n_zero]
      · have hr0 : baselineRate pbh obh possible (lookupSet obh h) = 0 :=
          le_antisymm (not_lt.mp hr) hnn
        rw [hr0, binomCdf_p_zero]
  · intro hemp
    subst hemp
    refine ⟨?_, ?_, ?_, ?_⟩ <;> simp [constraintRow]

/-- C7 (witness): the amended properties evaluated at a concrete
zero-observed stratum (Hamming 1) with baseline rate 1. -/
theorem C7_constraint_edge_cases_amended_witness :
    ((1 : Nat), ({(("chrA" : String), 1)} : Finset Locus)) ∈
      ([(1, ({(("chrA" : String), 1)} : Finset Locus)),
        (3, ({(("chrB" : String), 2)} : Finset Locus))] :
        List (Nat × Finset Locus))
    ∧ baselineRate
      [(1, ({(("chrA" : String), 1)} : Finset Locus)),
        (3, ({(("chrB" : String), 2)} : Finset Locus))]
      [(3, ({(("chrB" : String), 2)} : Finset Locus))]
      ({(("chrA" : String), 1)} : Finset Locus)
      (lookupSet [(3, ({(("chrB" : String), 2)} : Finset Locus))] 1) ≤ 1
    ∧ (constraintRow
      [(1, ({(("chrA" : String), 1)} : Finset Locus)),
        (3, ({(("chrB" : String), 2)} : Finset Locus))]
      [(3, ({(("chrB" : String), 2)} : Finset Locus))] [] 1
      ({(("chrA" : String), 1)} : Finset Locus)).fold_depletion = ⊤ :=
  ⟨by decide, by norm_num [baselineRate, lookupSet, List.find?],
    (C7_constraint_edge_cases_amended
      [(1, ({(("chrA" : String), 1)} : Finset Locus)),
        (3, ({(("chrB" : String), 2)} : Finset Locus))]
      [(3, ({(("chrB" : String), 2)} : Finset Locus))] [] 1
      ({(("chrA" : String), 1)} : Finset Locus)
      (by decide) (by norm_num [baselineRate, lookupSet, List.find?])).2.2.1
      (by decide)⟩

end DormantPipeline
